import Mathlib

/-!
# hlxml: `TinyXml_Document`, and the utilities of `hltypesUtil.h`

A shallow embedding of `src/hlxml/xmlsystems/TinyXml/TinyXml_Document.cpp`
(constructor, destructor, `root` and `node`) and of the function templates and
loop macros of `src/include/hltypes/hltypesUtil.h`, at the type `int`.

Pointers are natural numbers and `0` is `NULL`.  A `TiXmlNode*` is the address of
a node of the native parse tree; a `TinyXml_Node*` is the address of a wrapper
that `TinyXml_Document::node` allocated with `new`.  The wrappers a document has
allocated are kept in `TinyXml_Document.heap`; the wrapper at position `i` of
that list lives at address `i + 1`, so `new` always yields a non-null address
that differs from the address of every wrapper allocated before.

An exception leaves the object in the state it had when the `throw` was reached,
so every member function returns its outcome together with the state after the
call.

Strings are C strings.  The collaborators of the constructor (path
normalization, the resource loader and the parser) are parameters; the row and
the column of a parser error are natural numbers when the parser reports them
and C++ `int`s inside the constructor.
-/

namespace hltypes

/-- The function template `hclamp(value, min, max)` of `hltypesUtil.h`, at an
integer type. -/
def hclamp (value min max : Int) : Int :=
  if value < min then min else (if value > max then max else value)

/-- The function template `hsgn(value)` of `hltypesUtil.h`, at an integer type. -/
def hsgn (value : Int) : Int :=
  if value = 0 then 0 else if value ≥ 0 then 1 else -1

/-- The function template `hmin(a, b)` of `hltypesUtil.h`, at an integer type. -/
def hmin (a b : Int) : Int :=
  if a < b then a else b

/-- The function template `hmax(a, b)` of `hltypesUtil.h`, at an integer type. -/
def hmax (a b : Int) : Int :=
  if a > b then a else b

/-- The function template `is_between(value, min, max)`, at an integer type. -/
def is_between (value min max : Int) : Bool :=
  decide (value ≥ min) && decide (value ≤ max)

/-- The function template `is_within(value, min, max)`, at an integer type. -/
def is_within (value min max : Int) : Bool :=
  decide (value > min) && decide (value < max)

/-- The function template `is_in_range(value, min, max)`, at an integer type. -/
def is_in_range (value min max : Int) : Bool :=
  decide (value ≥ min) && decide (value < max)

/-- The function template `is_inside(value, min, max)`, at an integer type. -/
def is_inside (value min max : Int) : Bool :=
  decide (value > min) && decide (value ≤ max)

/-- The least value of the C++ type `int` (32 bits, two's complement). -/
def INT_MIN : Int := -2147483648

/-- The greatest value of the C++ type `int`. -/
def INT_MAX : Int := 2147483647

/-- The `int` an arithmetic result is stored as: results outside
`INT_MIN .. INT_MAX` wrap around modulo `2^32`. -/
def wrapInt (x : Int) : Int :=
  (x + 2147483648) % 4294967296 - 2147483648

/-- The loop `for (int name = init; cond(name); name = next(name)) body`, whose
body does not assign to `name`: the values `name` has in the successive
executions of the body.  `fuel` bounds the number of times the condition is
tested; the result is `none` when the loop is still running after that many
tests. -/
def forValues (cond : Int → Bool) (next : Int → Int) : Nat → Int → Option (List Int)
  | 0, _ => none
  | fuel + 1, name =>
    if cond name then
      match forValues cond next fuel (next name) with
      | some rest => some (name :: rest)
      | none => none
    else some []

/-- The macro `for_iter(name, min, max)`:
`for (int name = min; name < max; ++name)`, with `int` arithmetic. -/
def for_iter (fuel : Nat) (min max : Int) : Option (List Int) :=
  forValues (fun name => decide (name < max)) (fun name => wrapInt (name + 1)) fuel min

/-- The macro `for_iter_r(name, max, min)`:
`for (int name = max - 1; name >= min; --name)`, with `int` arithmetic. -/
def for_iter_r (fuel : Nat) (max min : Int) : Option (List Int) :=
  forValues (fun name => decide (name ≥ min)) (fun name => wrapInt (name - 1)) fuel
    (wrapInt (max - 1))

/-- The macro `for_iter_step(name, min, max, step)`:
`for (int name = min; name < max; name += step)`, for the runs in which no
operation overflows, where `int` arithmetic is exact. -/
def for_iter_step (fuel : Nat) (min max step : Int) : Option (List Int) :=
  forValues (fun name => decide (name < max)) (fun name => name + step) fuel min

/-- The macro `for_iter_step_r(name, max, min, step)`:
`for (int name = max - 1; name >= min; name -= step)`, for the runs in which no
operation overflows, where `int` arithmetic is exact. -/
def for_iter_step_r (fuel : Nat) (max min step : Int) : Option (List Int) :=
  forValues (fun name => decide (name ≥ min)) (fun name => name - step) fuel (max - 1)

end hltypes

namespace hlxml

/-- The native parse tree, as far as `TinyXml_Document` looks at it:
`FirstChildElement()` (`0` when the tree has no top-level element) and the
`Value()` (tag) of each native node. -/
structure TiXmlDocument where
  FirstChildElement : Nat
  Value : Nat → String

/-- The fields of a wrapper object: `TinyXml_Node(document, node)`. -/
structure TinyXml_Node where
  document : Nat
  node : Nat
deriving DecidableEq, Repr

/-- The exception type of the library, carrying its message. -/
structure XMLException where
  message : String
deriving DecidableEq, Repr

/-- What a call does: it returns a value, throws, or dereferences a pointer that
is not the address of a live wrapper (undefined behaviour). -/
inductive Outcome (α : Type) where
  | returned (a : α)
  | thrown (e : XMLException)
  | undefined
deriving DecidableEq, Repr

/-- Modelled from the spec: `hmap::try_get_by_key(key, defaultValue)` of hltypes,
whose header is not among the sources: the value stored under `key`, or
`defaultValue` when the map has no entry for `key`. -/
def try_get_by_key (m : List (Nat × Nat)) (key defaultValue : Nat) : Nat :=
  match m.lookup key with
  | some v => v
  | none => defaultValue

/-- The assignment `m[key] = value` of the `std::map` under `hmap`: the entry of
`key` is replaced when there is one and inserted in key order otherwise. -/
def hmapSet : List (Nat × Nat) → Nat → Nat → List (Nat × Nat)
  | [], key, value => [(key, value)]
  | (k, v) :: rest, key, value =>
    if key < k then (key, value) :: (k, v) :: rest
    else if key = k then (key, value) :: rest
    else (k, v) :: hmapSet rest key value

/-- The members of `TinyXml_Document`, with `addr` for the object address
(`this`) and `heap` for the wrappers allocated so far. -/
structure TinyXml_Document where
  addr : Nat
  filename : String
  document : TiXmlDocument
  rootNode : Nat
  nodes : List (Nat × Nat)
  heap : List TinyXml_Node

/-- The document a successful constructor call leaves behind: `rootNode(NULL)`,
an empty `nodes` map, and no wrapper allocated yet. -/
def TinyXml_Document.loaded (addr : Nat) (filename : String) (document : TiXmlDocument) :
    TinyXml_Document :=
  { addr := addr, filename := filename, document := document,
    rootNode := 0, nodes := [], heap := [] }

/-- The wrapper object a `TinyXml_Node*` points to, if it is the address of a
wrapper this document allocated. -/
def TinyXml_Document.deref (self : TinyXml_Document) (p : Nat) : Option TinyXml_Node :=
  if p = 0 then none else self.heap[p - 1]?

/-- Modelled from the spec: `Node::operator!=(chstr)`, declared in `Node.h`, which
is not among the sources: a wrapper "supports tag-name comparison
(equality/inequality against a string)", the tag being the value of the native
node the wrapper is bound to. -/
def TinyXml_Node.ne (tree : TiXmlDocument) (w : TinyXml_Node) (type : String) : Bool :=
  tree.Value w.node != type

/-- The member function `TinyXml_Document::node(TiXmlNode* node)`. -/
def TinyXml_Document.node (self : TinyXml_Document) (node : Nat) : Nat × TinyXml_Document :=
  if node = 0 then (0, self)
  else
    let newNode := try_get_by_key self.nodes node 0
    if newNode = 0 then
      let newNode := self.heap.length + 1
      (newNode, { self with
                    heap := self.heap ++ [{ document := self.addr, node := node }],
                    nodes := hmapSet self.nodes node newNode })
    else (newNode, self)

/-- The member function `TinyXml_Document::root(chstr type)`. -/
def TinyXml_Document.root (self : TinyXml_Document) (type : String) :
    Outcome Nat × TinyXml_Document :=
  if self.rootNode = 0 then
    let tinyXmlNode := self.document.FirstChildElement
    if tinyXmlNode = 0 then
      (.thrown ⟨"No root node found in XML file '" ++ self.filename ++ "'!"⟩, self)
    else
      let r := self.node tinyXmlNode
      let s : TinyXml_Document := { r.2 with rootNode := r.1 }
      if type ≠ "" then
        match s.deref s.rootNode with
        | none => (.undefined, s)
        | some w =>
          if TinyXml_Node.ne s.document w type then
            (.thrown ⟨"Root node type is not '" ++ type ++ "' in XML file '" ++
              s.filename ++ "'!"⟩, s)
          else (.returned s.rootNode, s)
      else (.returned s.rootNode, s)
  else (.returned self.rootNode, self)

/-- A call a client makes on a live document. -/
inductive Call where
  | node (h : Nat)
  | root (type : String)
deriving DecidableEq, Repr

/-- The state after one call. -/
def TinyXml_Document.step (self : TinyXml_Document) : Call → TinyXml_Document
  | .node h => (self.node h).2
  | .root type => (self.root type).2

/-- The state after a sequence of calls, first call first. -/
def TinyXml_Document.run (self : TinyXml_Document) : List Call → TinyXml_Document
  | [] => self
  | c :: cs => (self.step c).run cs

/-- The wrappers that the successful `root` calls of a call sequence return, in
call order. -/
def TinyXml_Document.rootResults (self : TinyXml_Document) : List Call → List Nat
  | [] => []
  | .node h :: cs => (self.node h).2.rootResults cs
  | .root type :: cs =>
    match (self.root type).1 with
    | .returned w => w :: (self.root type).2.rootResults cs
    | _ => (self.root type).2.rootResults cs

/-- The tree of the document `<a/>`: its only element lives at address `1`. -/
def treeA : TiXmlDocument :=
  { FirstChildElement := 1, Value := fun n => if n = 1 then "a" else "" }

/-- The tree of a document without a top-level element. -/
def treeEmpty : TiXmlDocument :=
  { FirstChildElement := 0, Value := fun _ => "" }

/-- The document `<a/>`, freshly loaded from `a.xml`. -/
def docA : TinyXml_Document := TinyXml_Document.loaded 100 "a.xml" treeA

/-- An empty document, freshly loaded from `e.xml`. -/
def docEmpty : TinyXml_Document := TinyXml_Document.loaded 100 "e.xml" treeEmpty

/-! ### Construction and destruction -/

/-- What `TiXmlDocument::Parse` leaves behind: the tree, and what `Error()`,
`ErrorDesc()`, `ErrorRow()` and `ErrorCol()` answer afterwards.  TinyXML counts
rows and columns from 1 and answers 0 for a location it does not know, so the
parser never reports a negative row or column. -/
structure TiXmlParsed where
  tree : TiXmlDocument
  Error : Bool
  ErrorDesc : String
  ErrorRow : Nat
  ErrorCol : Nat

/-- The exception with which `hresource::hread` fails when the resource cannot
be read. -/
structure ResourceError where
  message : String
deriving DecidableEq, Repr

/-- The collaborators the constructor calls, none of which is among the
sources: `hrdir::normalize`, `hresource::hread` (which throws when the resource
cannot be read) and the parser (`new TiXmlDocument()` followed by `Parse`). -/
structure Collaborators where
  normalize : String → String
  hread : String → Except ResourceError String
  Parse : String → TiXmlParsed

/-- The pieces of `s` between the occurrences of `sep`; there is always at least
one piece. -/
def splitChars (sep : Char) : List Char → List (List Char)
  | [] => [[]]
  | c :: cs =>
    if c = sep then [] :: splitChars sep cs
    else
      match splitChars sep cs with
      | [] => [[c]]
      | piece :: pieces => (c :: piece) :: pieces

/-- Modelled from the spec: `hstr::split("\n")`, whose header is not among the
sources: "split the raw source text into lines on line breaks". -/
def hstr.split (s : String) : List String :=
  (splitChars (Char.ofNat 10) s.data).map String.mk

/-- Modelled from the spec: `hstr::trim()`, whose header is not among the
sources: "the trimmed text" of a line, the line without the blanks at its two
ends. -/
def hstr.trim (s : String) : String :=
  String.mk (((s.data.dropWhile (fun c => c = ' ')).reverse.dropWhile
    (fun c => c = ' ')).reverse)

/-- Modelled from the spec: `harray::operator[](int)`, whose header is not among
the sources: the element at `index` when `0 ≤ index < size()`; outside that
range there is no element to return. -/
def harrayAt (a : List String) (index : Int) : Option String :=
  if 0 ≤ index then a[index.toNat]? else none

/-- The text `hsprintf(" [row %d, column %d]", row, col)`. -/
def rowColumnText (row col : Int) : String :=
  " [row " ++ toString row ++ ", column " ++ toString col ++ "]"

/-- What lines 32-45 of the constructor compute: `desc`, the final description,
which is `none` when `lines[row - 1]` was evaluated with an index outside
`0 .. lines.size() - 1`, and `lookups`, the indices at which `lines` was
subscripted. -/
structure ErrorReport where
  lookups : List Int
  desc : Option String
deriving DecidableEq, Repr

/-- Lines 32-45 of the constructor: the description `desc` of the parser,
extended with the row, the column and the quoted source line.  `row` and `col`
are C++ `int`s, and so is `lines.size()`. -/
def errorReport (desc : String) (row col : Int) (data : String) : ErrorReport :=
  if row ≠ 0 then
    let desc := desc ++ rowColumnText row col
    let lines := hstr.split data
    if (lines.length : Int) ≥ row then
      match harrayAt lines (row - 1) with
      | none => { lookups := [row - 1], desc := none }
      | some line =>
        { lookups := [row - 1],
          desc := some (desc ++ "\n----------------------------------------------------------\n"
            ++ hstr.trim line ++
            "\n----------------------------------------------------------") }
    else { lookups := [], desc := some desc }
  else { lookups := [], desc := some desc }

/-- The text `hsprintf("An error occcured parsing XML file '%s': %s", ...)` of
line 46. -/
def errorMessage (realFilename desc : String) : String :=
  "An error occcured parsing XML file '" ++ realFilename ++ "': " ++ desc

/-- A call the constructor makes on a collaborator. -/
inductive LoadEvent where
  | normalize (filename : String)
  | hread (filename : String)
  | parse (data : String)
deriving DecidableEq, Repr

/-- How a constructor call ends: with a live document, with the exception of
`hresource::hread`, with the `XMLException` of line 46, or in a subscript of
`lines` outside its bounds. -/
inductive Constructed where
  | document (d : TinyXml_Document)
  | readFailed (e : ResourceError)
  | parseFailed (e : XMLException)
  | subscript (index : Int)

/-- The constructor `TinyXml_Document::TinyXml_Document(chstr filename)`, for an
object at address `addr`: the collaborator calls it makes, in order, and how it
ends.  The base class constructor `Document(filename)` stores `filename`. -/
def TinyXml_Document.construct (env : Collaborators) (addr : Nat) (filename : String) :
    List LoadEvent × Constructed :=
  let realFilename := env.normalize filename
  match env.hread filename with
  | .error e => ([.normalize filename, .hread filename], .readFailed e)
  | .ok data =>
    let parsed := env.Parse data
    if parsed.Error then
      let desc := parsed.ErrorDesc
      let row : Int := parsed.ErrorRow
      let col : Int := parsed.ErrorCol
      match (errorReport desc row col data).desc with
      | none =>
        ([.normalize filename, .hread filename, .parse data], .subscript (row - 1))
      | some desc =>
        ([.normalize filename, .hread filename, .parse data],
          .parseFailed ⟨errorMessage realFilename desc⟩)
    else
      ([.normalize filename, .hread filename, .parse data],
        .document (TinyXml_Document.loaded addr filename parsed.tree))

/-- An object the destructor releases with `delete`. -/
inductive Release where
  | wrapper (w : Nat)
  | tree
deriving DecidableEq, Repr

/-- The loop `foreach_map (..., it, this->nodes) { delete it->second; }`: the
wrappers it releases, in map order.  `delete` of a null pointer releases
nothing. -/
def deleteWrappers : List (Nat × Nat) → List Release
  | [] => []
  | (_, w) :: rest =>
    if w = 0 then deleteWrappers rest else Release.wrapper w :: deleteWrappers rest

/-- The destructor `TinyXml_Document::~TinyXml_Document()`: the objects it
releases, in order, and the members when its body ends.  `this->document` is
the result of `new` in the constructor and hence never `NULL`. -/
def TinyXml_Document.destroy (self : TinyXml_Document) :
    List Release × TinyXml_Document :=
  let s1 : TinyXml_Document := { self with rootNode := 0 }
  let released := deleteWrappers s1.nodes
  let s2 : TinyXml_Document := { s1 with nodes := [] }
  (released ++ [Release.tree], s2)

/-- A parser that accepts every text and answers the tree of `<a/>`. -/
def parseA (_ : String) : TiXmlParsed :=
  { tree := treeA, Error := false, ErrorDesc := "", ErrorRow := 0, ErrorCol := 0 }

/-- A parser that rejects every text with the given description and location. -/
def parseError (desc : String) (row col : Nat) (_ : String) : TiXmlParsed :=
  { tree := treeEmpty, Error := true, ErrorDesc := desc, ErrorRow := row, ErrorCol := col }

/-- Collaborators for which every resource is readable and holds `data`. -/
def readable (data : String) (parse : String → TiXmlParsed) : Collaborators :=
  { normalize := fun f => f, hread := fun _ => .ok data, Parse := parse }

/-- Collaborators for which no resource can be read. -/
def unreadable : Collaborators :=
  { normalize := fun f => f,
    hread := fun f => .error ⟨"Could not open file '" ++ f ++ "'!"⟩,
    Parse := parseA }

/-- The invariant of a live document: every cache entry maps a non-null native
node to the non-null address of a wrapper bound to this document and that node,
no key occurs twice, and a resolved root is the wrapper cached for the first
top-level element. -/
structure Inv (s : TinyXml_Document) : Prop where
  entries : ∀ h w, s.nodes.lookup h = some w →
    h ≠ 0 ∧ w ≠ 0 ∧ s.heap[w - 1]? = some { document := s.addr, node := h }
  keys : (s.nodes.map Prod.fst).Nodup
  root : s.rootNode ≠ 0 →
    s.document.FirstChildElement ≠ 0 ∧
      s.nodes.lookup s.document.FirstChildElement = some s.rootNode

/-! ## The map -/

theorem lookup_cons_eq (a b k : Nat) (rest : List (Nat × Nat)) :
    List.lookup k ((a, b) :: rest) = if k = a then some b else List.lookup k rest := by
  by_cases h : k = a
  · subst h
    simp [List.lookup]
  · have hb : (k == a) = false := by simpa using h
    simp [List.lookup, hb, h]

theorem lookup_hmapSet (m : List (Nat × Nat)) (k v k' : Nat) :
    (hmapSet m k v).lookup k' = if k' = k then some v else m.lookup k' := by
  induction m with
  | nil => simp [hmapSet, lookup_cons_eq]
  | cons p rest ih =>
    obtain ⟨a, b⟩ := p
    unfold hmapSet
    by_cases h1 : k < a
    · simp [h1, lookup_cons_eq]
    · by_cases h2 : k = a
      · subst h2
        by_cases hk : k' = k
        · simp [lookup_cons_eq, hk]
        · simp [lookup_cons_eq, hk]
      · simp only [h1, h2, if_false, lookup_cons_eq, ih]
        by_cases hk : k' = k
        · subst hk
          simp [h2]
        · simp [hk]

theorem lookup_none_not_mem_keys (m : List (Nat × Nat)) (k : Nat)
    (h : m.lookup k = none) : k ∉ m.map Prod.fst := by
  induction m with
  | nil => simp
  | cons p rest ih =>
    obtain ⟨a, b⟩ := p
    rw [lookup_cons_eq] at h
    by_cases hk : k = a
    · simp [hk] at h
    · simp only [hk, if_false] at h
      simp only [List.map_cons, List.mem_cons, not_or]
      exact ⟨hk, ih h⟩

theorem mem_keys_hmapSet (m : List (Nat × Nat)) (k v x : Nat)
    (h : x ∈ (hmapSet m k v).map Prod.fst) : x = k ∨ x ∈ m.map Prod.fst := by
  induction m with
  | nil => simpa [hmapSet] using h
  | cons p rest ih =>
    obtain ⟨a, b⟩ := p
    unfold hmapSet at h
    by_cases h1 : k < a
    · simp only [h1, if_true, List.map_cons, List.mem_cons] at h
      simp only [List.map_cons, List.mem_cons]
      tauto
    · by_cases h2 : k = a
      · subst h2
        simp only [h1, if_true, if_false, List.map_cons, List.mem_cons] at h
        simp only [List.map_cons, List.mem_cons]
        tauto
      · simp only [h1, h2, if_false, List.map_cons, List.mem_cons] at h
        simp only [List.map_cons, List.mem_cons]
        rcases h with h | h
        · exact Or.inr (Or.inl h)
        · rcases ih h with h3 | h3
          · exact Or.inl h3
          · exact Or.inr (Or.inr h3)

theorem keys_nodup_hmapSet (m : List (Nat × Nat)) (k v : Nat)
    (hn : m.lookup k = none) (hd : (m.map Prod.fst).Nodup) :
    ((hmapSet m k v).map Prod.fst).Nodup := by
  induction m with
  | nil => simp [hmapSet]
  | cons p rest ih =>
    obtain ⟨a, b⟩ := p
    rw [lookup_cons_eq] at hn
    have hka : k ≠ a := by
      intro hk
      simp [hk] at hn
    have hrest : rest.lookup k = none := by
      simpa [hka] using hn
    have hnot := lookup_none_not_mem_keys rest k hrest
    simp only [List.map_cons, List.nodup_cons] at hd
    unfold hmapSet
    by_cases h1 : k < a
    · simp only [h1, if_true, List.map_cons, List.nodup_cons]
      refine ⟨?_, hd.1, hd.2⟩
      simp only [List.mem_cons, not_or]
      exact ⟨hka, hnot⟩
    · simp only [h1, hka, if_false, List.map_cons, List.nodup_cons]
      refine ⟨?_, ih hrest hd.2⟩
      intro hmem
      rcases mem_keys_hmapSet rest k v a hmem with h | h
      · exact hka h.symm
      · exact hd.1 h

theorem try_get_by_key_ne_zero (m : List (Nat × Nat)) (k : Nat)
    (h : try_get_by_key m k 0 ≠ 0) : m.lookup k = some (try_get_by_key m k 0) := by
  unfold try_get_by_key at h ⊢
  cases hl : m.lookup k with
  | none => simp [hl] at h
  | some v => simp

theorem try_get_by_key_some (m : List (Nat × Nat)) (k v d : Nat)
    (h : m.lookup k = some v) : try_get_by_key m k d = v := by
  simp [try_get_by_key, h]

/-! ## `node` -/

theorem node_of_cached (s : TinyXml_Document) (h w : Nat) (hh : h ≠ 0) (hw : w ≠ 0)
    (hl : s.nodes.lookup h = some w) : s.node h = (w, s) := by
  simp [TinyXml_Document.node, hh, try_get_by_key_some _ _ _ _ hl, hw]

theorem node_of_absent (s : TinyXml_Document) (h : Nat) (hh : h ≠ 0)
    (hl : try_get_by_key s.nodes h 0 = 0) :
    s.node h = (s.heap.length + 1,
      { s with heap := s.heap ++ [{ document := s.addr, node := h }],
               nodes := hmapSet s.nodes h (s.heap.length + 1) }) := by
  simp [TinyXml_Document.node, hh, hl]

theorem node_cases (s : TinyXml_Document) (h : Nat) :
    s.node h = (0, s) ∧ h = 0 ∨
    (h ≠ 0 ∧ try_get_by_key s.nodes h 0 ≠ 0 ∧ s.node h = (try_get_by_key s.nodes h 0, s)) ∨
    (h ≠ 0 ∧ try_get_by_key s.nodes h 0 = 0 ∧
      s.node h = (s.heap.length + 1,
        { s with heap := s.heap ++ [{ document := s.addr, node := h }],
                 nodes := hmapSet s.nodes h (s.heap.length + 1) })) := by
  by_cases hh : h = 0
  · left
    simp [TinyXml_Document.node, hh]
  · by_cases ht : try_get_by_key s.nodes h 0 = 0
    · right
      right
      exact ⟨hh, ht, node_of_absent s h hh ht⟩
    · right
      left
      refine ⟨hh, ht, ?_⟩
      simp [TinyXml_Document.node, hh, ht]

theorem node_fields (s : TinyXml_Document) (h : Nat) :
    (s.node h).2.addr = s.addr ∧ (s.node h).2.filename = s.filename ∧
    (s.node h).2.document = s.document ∧ (s.node h).2.rootNode = s.rootNode := by
  rcases node_cases s h with ⟨h1, _⟩ | ⟨_, _, h1⟩ | ⟨_, _, h1⟩ <;> simp [h1]

theorem node_lookup_self (s : TinyXml_Document) (h : Nat) (hh : h ≠ 0) :
    (s.node h).2.nodes.lookup h = some (s.node h).1 ∧ (s.node h).1 ≠ 0 := by
  rcases node_cases s h with ⟨_, h0⟩ | ⟨_, ht, h1⟩ | ⟨_, _, h1⟩
  · exact absurd h0 hh
  · rw [h1]
    exact ⟨try_get_by_key_ne_zero _ _ ht, ht⟩
  · rw [h1]
    simp [lookup_hmapSet]

theorem node_lookup_keep (s : TinyXml_Document) (h k w : Nat) (hw : w ≠ 0)
    (hl : s.nodes.lookup k = some w) : (s.node h).2.nodes.lookup k = some w := by
  rcases node_cases s h with ⟨h1, _⟩ | ⟨_, _, h1⟩ | ⟨_, ht, h1⟩
  · rw [h1]
    exact hl
  · rw [h1]
    exact hl
  · rw [h1]
    have hkh : k ≠ h := by
      intro hk
      subst hk
      rw [try_get_by_key_some _ _ _ _ hl] at ht
      exact hw ht
    simp [lookup_hmapSet, hkh, hl]

theorem getElem?_append_of_some {α : Type} (l : List α) (x a : α) (i : Nat)
    (h : l[i]? = some a) : (l ++ [x])[i]? = some a := by
  have hlt : i < l.length := by
    by_contra hc
    have : l[i]? = none := List.getElem?_eq_none (Nat.le_of_not_lt hc)
    rw [this] at h
    exact Option.noConfusion h
  rw [List.getElem?_append_left hlt]
  exact h

theorem node_inv (s : TinyXml_Document) (h : Nat) (hi : Inv s) : Inv (s.node h).2 := by
  rcases node_cases s h with ⟨h1, _⟩ | ⟨_, _, h1⟩ | ⟨hh, ht, h1⟩
  · rw [h1]
    exact hi
  · rw [h1]
    exact hi
  · have hnone : s.nodes.lookup h = none := by
      cases hl : s.nodes.lookup h with
      | none => rfl
      | some w =>
        have hw := (hi.entries h w hl).2.1
        rw [try_get_by_key_some _ _ _ _ hl] at ht
        exact absurd ht hw
    rw [h1]
    refine ⟨?_, ?_, ?_⟩
    · intro k w hl
      simp only [lookup_hmapSet] at hl
      by_cases hk : k = h
      · subst hk
        simp only [if_true, Option.some.injEq] at hl
        subst hl
        refine ⟨hh, Nat.succ_ne_zero _, ?_⟩
        simp
      · simp only [hk, if_false] at hl
        obtain ⟨e1, e2, e3⟩ := hi.entries k w hl
        exact ⟨e1, e2, getElem?_append_of_some _ _ _ _ e3⟩
    · exact keys_nodup_hmapSet _ _ _ hnone hi.keys
    · intro hr
      obtain ⟨r1, r2⟩ := hi.root hr
      refine ⟨r1, ?_⟩
      have hne : s.document.FirstChildElement ≠ h := by
        intro hk
        rw [hk, hnone] at r2
        exact Option.noConfusion r2
      simp only [lookup_hmapSet, hne, if_false]
      exact r2

/-! ## `root` -/

theorem root_of_resolved (s : TinyXml_Document) (type : String) (h : s.rootNode ≠ 0) :
    s.root type = (.returned s.rootNode, s) := by
  simp [TinyXml_Document.root, h]

theorem root_of_no_element (s : TinyXml_Document) (type : String) (h : s.rootNode = 0)
    (he : s.document.FirstChildElement = 0) :
    s.root type =
      (.thrown ⟨"No root node found in XML file '" ++ s.filename ++ "'!"⟩, s) := by
  simp [TinyXml_Document.root, h, he]

theorem root_state_of_unresolved (s : TinyXml_Document) (type : String)
    (h : s.rootNode = 0) (he : s.document.FirstChildElement ≠ 0) :
    (s.root type).2 =
      { (s.node s.document.FirstChildElement).2 with
          rootNode := (s.node s.document.FirstChildElement).1 } := by
  simp only [TinyXml_Document.root, h, he, if_true, if_false]
  split
  · split
    · rfl
    · split <;> rfl
  · rfl

theorem root_state (s : TinyXml_Document) (type : String) :
    (s.root type).2 = s ∨
    (s.rootNode = 0 ∧ s.document.FirstChildElement ≠ 0 ∧
      (s.root type).2 =
        { (s.node s.document.FirstChildElement).2 with
            rootNode := (s.node s.document.FirstChildElement).1 }) := by
  by_cases h : s.rootNode = 0
  · by_cases he : s.document.FirstChildElement = 0
    · left
      rw [root_of_no_element s type h he]
    · right
      exact ⟨h, he, root_state_of_unresolved s type h he⟩
  · left
    rw [root_of_resolved s type h]

theorem root_inv (s : TinyXml_Document) (type : String) (hi : Inv s) :
    Inv (s.root type).2 := by
  rcases root_state s type with h | ⟨_, he, h⟩
  · rw [h]
    exact hi
  · rw [h]
    have hn := node_inv s s.document.FirstChildElement hi
    have hf := node_fields s s.document.FirstChildElement
    have hl := node_lookup_self s s.document.FirstChildElement he
    refine ⟨hn.entries, hn.keys, ?_⟩
    intro _
    simp only [hf.2.2.1]
    exact ⟨he, hl.1⟩

theorem step_inv (s : TinyXml_Document) (c : Call) (hi : Inv s) : Inv (s.step c) := by
  cases c with
  | node h => exact node_inv s h hi
  | root type => exact root_inv s type hi

theorem run_inv (s : TinyXml_Document) (cs : List Call) (hi : Inv s) : Inv (s.run cs) := by
  induction cs generalizing s with
  | nil => exact hi
  | cons c cs ih => exact ih (s.step c) (step_inv s c hi)

theorem loaded_inv (addr : Nat) (filename : String) (tree : TiXmlDocument) :
    Inv (TinyXml_Document.loaded addr filename tree) := by
  refine ⟨?_, ?_, ?_⟩
  · intro h w hl
    simp [TinyXml_Document.loaded] at hl
  · simp [TinyXml_Document.loaded]
  · intro hr
    simp [TinyXml_Document.loaded] at hr

theorem reachable_inv (addr : Nat) (filename : String) (tree : TiXmlDocument)
    (cs : List Call) : Inv ((TinyXml_Document.loaded addr filename tree).run cs) :=
  run_inv _ cs (loaded_inv addr filename tree)

theorem root_fields (s : TinyXml_Document) (type : String) :
    (s.root type).2.addr = s.addr ∧ (s.root type).2.filename = s.filename ∧
    (s.root type).2.document = s.document := by
  rcases root_state s type with h | ⟨_, _, h⟩
  · rw [h]
    exact ⟨rfl, rfl, rfl⟩
  · rw [h]
    have hf := node_fields s s.document.FirstChildElement
    exact ⟨hf.1, hf.2.1, hf.2.2.1⟩

theorem step_fields (s : TinyXml_Document) (c : Call) :
    (s.step c).addr = s.addr ∧ (s.step c).filename = s.filename ∧
    (s.step c).document = s.document := by
  cases c with
  | node h =>
    have hf := node_fields s h
    exact ⟨hf.1, hf.2.1, hf.2.2.1⟩
  | root type => exact root_fields s type

theorem run_fields (s : TinyXml_Document) (cs : List Call) :
    (s.run cs).addr = s.addr ∧ (s.run cs).filename = s.filename ∧
    (s.run cs).document = s.document := by
  induction cs generalizing s with
  | nil => exact ⟨rfl, rfl, rfl⟩
  | cons c cs ih =>
    have h1 := ih (s.step c)
    have h2 := step_fields s c
    exact ⟨h1.1.trans h2.1, h1.2.1.trans h2.2.1, h1.2.2.trans h2.2.2⟩

theorem root_lookup_keep (s : TinyXml_Document) (type : String) (k w : Nat) (hw : w ≠ 0)
    (hl : s.nodes.lookup k = some w) : (s.root type).2.nodes.lookup k = some w := by
  rcases root_state s type with h | ⟨_, _, h⟩
  · rw [h]
    exact hl
  · rw [h]
    exact node_lookup_keep s _ k w hw hl

theorem step_lookup_keep (s : TinyXml_Document) (c : Call) (k w : Nat) (hw : w ≠ 0)
    (hl : s.nodes.lookup k = some w) : (s.step c).nodes.lookup k = some w := by
  cases c with
  | node h => exact node_lookup_keep s h k w hw hl
  | root type => exact root_lookup_keep s type k w hw hl

theorem run_lookup_keep (s : TinyXml_Document) (cs : List Call) (k w : Nat) (hw : w ≠ 0)
    (hl : s.nodes.lookup k = some w) : (s.run cs).nodes.lookup k = some w := by
  induction cs generalizing s with
  | nil => exact hl
  | cons c cs ih => exact ih (s.step c) (step_lookup_keep s c k w hw hl)

theorem step_rootNode_keep (s : TinyXml_Document) (c : Call) (h : s.rootNode ≠ 0) :
    (s.step c).rootNode = s.rootNode := by
  cases c with
  | node n => exact (node_fields s n).2.2.2
  | root type =>
    show (s.root type).2.rootNode = s.rootNode
    rw [root_of_resolved s type h]

theorem run_rootNode_keep (s : TinyXml_Document) (cs : List Call) (h : s.rootNode ≠ 0) :
    (s.run cs).rootNode = s.rootNode := by
  induction cs generalizing s with
  | nil => rfl
  | cons c cs ih =>
    have h1 := step_rootNode_keep s c h
    have h2 := ih (s.step c) (by rw [h1]; exact h)
    exact h2.trans h1

/-- The outcome of `root` while the root reference is absent and the tree has a
top-level element, in a state that satisfies the invariant. -/
theorem root_of_unresolved (s : TinyXml_Document) (type : String) (hi : Inv s)
    (h : s.rootNode = 0) (he : s.document.FirstChildElement ≠ 0) :
    (s.root type).1 =
      if type ≠ "" ∧ s.document.Value s.document.FirstChildElement ≠ type then
        .thrown ⟨"Root node type is not '" ++ type ++ "' in XML file '" ++
          s.filename ++ "'!"⟩
      else .returned (s.node s.document.FirstChildElement).1 := by
  have hn := node_inv s s.document.FirstChildElement hi
  have hf := node_fields s s.document.FirstChildElement
  have hl := node_lookup_self s s.document.FirstChildElement he
  have hd := (hn.entries _ _ hl.1).2.2
  simp only [TinyXml_Document.root, h, he, if_true, if_false, TinyXml_Document.deref,
    hl.2, hd, hf.1, hf.2.1, hf.2.2.1]
  by_cases ht : type = ""
  · simp [ht]
  · by_cases hv : s.document.Value s.document.FirstChildElement = type
    · simp [ht, hv, TinyXml_Node.ne]
    · simp [ht, hv, TinyXml_Node.ne]

theorem root_returned_lookup (s : TinyXml_Document) (type : String) (w : Nat)
    (hi : Inv s) (he : s.document.FirstChildElement ≠ 0)
    (hr : (s.root type).1 = .returned w) :
    (s.root type).2.nodes.lookup s.document.FirstChildElement = some w ∧ w ≠ 0 ∧
      (s.root type).2.rootNode = w := by
  by_cases h : s.rootNode = 0
  · have ho := root_of_unresolved s type hi h he
    have hl := node_lookup_self s s.document.FirstChildElement he
    rw [ho] at hr
    split at hr
    · exact Outcome.noConfusion hr
    · have hw : (s.node s.document.FirstChildElement).1 = w := by
        injection hr
      rw [root_state_of_unresolved s type h he, ← hw]
      exact ⟨hl.1, hl.2, rfl⟩
  · rw [root_of_resolved s type h] at hr ⊢
    have hw : s.rootNode = w := by
      injection hr
    rw [← hw]
    exact ⟨(hi.root h).2, h, rfl⟩

theorem rootResults_lookup (s : TinyXml_Document) (cs : List Call) (hi : Inv s)
    (he : s.document.FirstChildElement ≠ 0) (w : Nat) (hw : w ∈ s.rootResults cs) :
    (s.run cs).nodes.lookup s.document.FirstChildElement = some w := by
  induction cs generalizing s with
  | nil => simp [TinyXml_Document.rootResults] at hw
  | cons c cs ih =>
    cases c with
    | node h =>
      have hd := (node_fields s h).2.2.1
      have := ih (s.node h).2 (node_inv s h hi) (by rw [hd]; exact he) hw
      rw [hd] at this
      exact this
    | root type =>
      have hd := (root_fields s type).2.2
      have hrec : w ∈ (s.root type).2.rootResults cs →
          ((s.root type).2.run cs).nodes.lookup s.document.FirstChildElement = some w := by
        intro hw
        have := ih (s.root type).2 (root_inv s type hi) (by rw [hd]; exact he) hw
        rw [hd] at this
        exact this
      simp only [TinyXml_Document.rootResults] at hw
      cases hr : (s.root type).1 with
      | returned v =>
        rw [hr] at hw
        simp only [List.mem_cons] at hw
        rcases hw with hw | hw
        · subst hw
          have hl := root_returned_lookup s type w hi he hr
          exact run_lookup_keep _ cs _ w hl.2.1 hl.1
        · exact hrec hw
      | thrown e =>
        rw [hr] at hw
        exact hrec hw
      | undefined =>
        rw [hr] at hw
        exact hrec hw

/-! ## The claims -/

/-- C1: for every document state and every non-null native handle `h`, a call
`node(h)` returns a non-null wrapper, and every later call `node(h)` returns that
same wrapper, whatever `node` and `root` calls are made in between. -/
theorem node_returns_first_wrapper (s : TinyXml_Document) (h : Nat) (hh : h ≠ 0)
    (cs : List Call) :
    (s.node h).1 ≠ 0 ∧ (((s.node h).2.run cs).node h).1 = (s.node h).1 := by
  have hl := node_lookup_self s h hh
  have hk := run_lookup_keep (s.node h).2 cs h _ hl.2 hl.1
  rw [node_of_cached _ h _ hh hl.2 hk]
  exact ⟨hl.2, rfl⟩

theorem node_returns_first_wrapper_witness :
    (5 : Nat) ≠ 0 ∧ (docA.node 5).1 ≠ 0 ∧
      (((docA.node 5).2.run [.root "b", .node 7, .node 5, .root ""]).node 5).1 =
        (docA.node 5).1 :=
  ⟨by decide, node_returns_first_wrapper docA 5 (by decide) [.root "b", .node 7, .node 5, .root ""]⟩

/-- C2: in every state reached from a freshly loaded document by `node` and
`root` calls, no key occurs twice in the node cache, and two cached handles have
the same wrapper if and only if they are the same handle. -/
theorem cache_injective (addr : Nat) (filename : String) (tree : TiXmlDocument)
    (cs : List Call) (h1 h2 w1 w2 : Nat)
    (hl1 : ((TinyXml_Document.loaded addr filename tree).run cs).nodes.lookup h1 = some w1)
    (hl2 : ((TinyXml_Document.loaded addr filename tree).run cs).nodes.lookup h2 = some w2) :
    (((TinyXml_Document.loaded addr filename tree).run cs).nodes.map Prod.fst).Nodup ∧
      (w1 = w2 ↔ h1 = h2) := by
  have hi := reachable_inv addr filename tree cs
  refine ⟨hi.keys, ?_, ?_⟩
  · intro hw
    subst hw
    have e1 := (hi.entries h1 w1 hl1).2.2
    have e2 := (hi.entries h2 w1 hl2).2.2
    rw [e1] at e2
    injection e2 with e3
    injection e3
  · intro hh
    subst hh
    rw [hl1] at hl2
    injection hl2

theorem cache_injective_witness :
    List.lookup 5 (docA.run [.node 5, .root "", .node 9]).nodes = some 1 ∧
    List.lookup 1 (docA.run [.node 5, .root "", .node 9]).nodes = some 2 ∧
    ((docA.run [.node 5, .root "", .node 9]).nodes.map Prod.fst).Nodup ∧
      ((1 : Nat) = 2 ↔ (5 : Nat) = 1) :=
  ⟨by decide, by decide,
    cache_injective 100 "a.xml" treeA [.node 5, .root "", .node 9] 5 1 1 2
      (by decide) (by decide)⟩

/-- C3 fails as stated: on the document `<a/>`, whose first top-level element has
tag `a`, the unconstrained call `root("")` succeeds, and the following call
`root("b")` does not fail: it returns the cached wrapper. -/
theorem root_cached_skips_tag_check :
    docA.document.FirstChildElement = 1 ∧ docA.document.Value 1 = "a" ∧
    (docA.root "").1 = .returned 1 ∧ (docA.root "").2.rootNode = 1 ∧
    ((docA.root "").2.root "b").1 = .returned 1 ∧
    ∀ e, ((docA.root "").2.root "b").1 ≠ .thrown e := by
  have h : ((docA.root "").2.root "b").1 = .returned 1 := by decide
  refine ⟨by decide, by decide, by decide, by decide, h, ?_⟩
  intro e he
  rw [h] at he
  exact Outcome.noConfusion he

/-- C3, amended: the tag check runs only in a call made while the root reference
is absent.  For a document whose first top-level element has tag `t`, in every
reachable state and for every non-empty `type` different from `t`, `root(type)`
throws the type-mismatch exception when the root reference is absent; when the
root reference is present, `root(type)` makes no check, returns the stored
wrapper and leaves the state unchanged. -/
theorem root_tag_check_only_when_unresolved (addr : Nat) (filename : String)
    (tree : TiXmlDocument) (cs : List Call) (type : String)
    (he : tree.FirstChildElement ≠ 0) (ht : type ≠ "")
    (hne : type ≠ tree.Value tree.FirstChildElement) :
    (((TinyXml_Document.loaded addr filename tree).run cs).rootNode = 0 →
      (((TinyXml_Document.loaded addr filename tree).run cs).root type).1 =
        .thrown ⟨"Root node type is not '" ++ type ++ "' in XML file '" ++
          filename ++ "'!"⟩) ∧
    (((TinyXml_Document.loaded addr filename tree).run cs).rootNode ≠ 0 →
      ((TinyXml_Document.loaded addr filename tree).run cs).root type =
        (.returned ((TinyXml_Document.loaded addr filename tree).run cs).rootNode,
          (TinyXml_Document.loaded addr filename tree).run cs)) := by
  have hi := reachable_inv addr filename tree cs
  have hf := run_fields (TinyXml_Document.loaded addr filename tree) cs
  have hdoc : ((TinyXml_Document.loaded addr filename tree).run cs).document = tree := hf.2.2
  have hfile : ((TinyXml_Document.loaded addr filename tree).run cs).filename = filename :=
    hf.2.1
  constructor
  · intro h0
    rw [root_of_unresolved _ type hi h0 (by rw [hdoc]; exact he), hdoc, hfile]
    rw [if_pos ⟨ht, fun hv => hne hv.symm⟩]
  · intro h0
    exact root_of_resolved _ type h0

theorem root_tag_check_only_when_unresolved_witness :
    treeA.FirstChildElement ≠ 0 ∧ "b" ≠ "" ∧ "b" ≠ treeA.Value treeA.FirstChildElement ∧
    (((TinyXml_Document.loaded 100 "a.xml" treeA).run [.node 4]).rootNode = 0 →
      (((TinyXml_Document.loaded 100 "a.xml" treeA).run [.node 4]).root "b").1 =
        .thrown ⟨"Root node type is not '" ++ "b" ++ "' in XML file '" ++
          "a.xml" ++ "'!"⟩) ∧
    (((TinyXml_Document.loaded 100 "a.xml" treeA).run [.node 4]).rootNode ≠ 0 →
      ((TinyXml_Document.loaded 100 "a.xml" treeA).run [.node 4]).root "b" =
        (.returned ((TinyXml_Document.loaded 100 "a.xml" treeA).run [.node 4]).rootNode,
          (TinyXml_Document.loaded 100 "a.xml" treeA).run [.node 4])) :=
  ⟨by decide, by decide, by decide,
    root_tag_check_only_when_unresolved 100 "a.xml" treeA [.node 4] "b"
      (by decide) (by decide) (by decide)⟩

/-- C4 at the failing input: on the freshly loaded document `<a/>` the call
`root("b")` throws the type-mismatch exception, and the root reference, absent
before the call, is present after it. -/
theorem root_mismatch_stores_root :
    docA.rootNode = 0 ∧
    (docA.root "b").1 = .thrown ⟨"Root node type is not 'b' in XML file 'a.xml'!"⟩ ∧
    (docA.root "b").2.rootNode = 1 := by
  decide

/-- C5: for a document whose tree has no top-level element, in every state
reached by `node` and `root` calls the root reference is absent, and `root(type)`
throws the no-root exception for every `type` and leaves the whole state (root
reference and node cache included) as it was. -/
theorem root_no_element_fails (addr : Nat) (filename : String) (tree : TiXmlDocument)
    (he : tree.FirstChildElement = 0) (cs : List Call) (type : String) :
    ((TinyXml_Document.loaded addr filename tree).run cs).rootNode = 0 ∧
    ((TinyXml_Document.loaded addr filename tree).run cs).root type =
      (.thrown ⟨"No root node found in XML file '" ++ filename ++ "'!"⟩,
        (TinyXml_Document.loaded addr filename tree).run cs) := by
  have hi := reachable_inv addr filename tree cs
  have hf := run_fields (TinyXml_Document.loaded addr filename tree) cs
  have hdoc : ((TinyXml_Document.loaded addr filename tree).run cs).document = tree := hf.2.2
  have hfile : ((TinyXml_Document.loaded addr filename tree).run cs).filename = filename :=
    hf.2.1
  have h0 : ((TinyXml_Document.loaded addr filename tree).run cs).rootNode = 0 := by
    by_contra hc
    have := (hi.root hc).1
    rw [hdoc] at this
    exact this he
  refine ⟨h0, ?_⟩
  rw [root_of_no_element _ type h0 (by rw [hdoc]; exact he), hfile]

theorem root_no_element_fails_witness :
    treeEmpty.FirstChildElement = 0 ∧
    ((TinyXml_Document.loaded 100 "e.xml" treeEmpty).run
      [.root "", .node 3, .root "x"]).rootNode = 0 ∧
    ((TinyXml_Document.loaded 100 "e.xml" treeEmpty).run
      [.root "", .node 3, .root "x"]).root "y" =
      (.thrown ⟨"No root node found in XML file '" ++ "e.xml" ++ "'!"⟩,
        (TinyXml_Document.loaded 100 "e.xml" treeEmpty).run
          [.root "", .node 3, .root "x"]) :=
  ⟨rfl, root_no_element_fails 100 "e.xml" treeEmpty rfl [.root "", .node 3, .root "x"] "y"⟩

/-- C6: on a freshly loaded document whose first top-level element `e` has tag
`t`, `root(t)` and `root("")` both return the same non-null wrapper, that wrapper
is bound to this document and `e`, and its tag does not differ from `t`. -/
theorem root_fresh_succeeds (addr : Nat) (filename : String) (tree : TiXmlDocument)
    (he : tree.FirstChildElement ≠ 0) :
    ∃ w, w ≠ 0 ∧
      ((TinyXml_Document.loaded addr filename tree).root
        (tree.Value tree.FirstChildElement)).1 = .returned w ∧
      ((TinyXml_Document.loaded addr filename tree).root
        (tree.Value tree.FirstChildElement)).2.deref w =
          some { document := addr, node := tree.FirstChildElement } ∧
      ((TinyXml_Document.loaded addr filename tree).root "").1 = .returned w ∧
      ((TinyXml_Document.loaded addr filename tree).root "").2.deref w =
          some { document := addr, node := tree.FirstChildElement } ∧
      TinyXml_Node.ne tree { document := addr, node := tree.FirstChildElement }
        (tree.Value tree.FirstChildElement) = false := by
  have hi := loaded_inv addr filename tree
  have h0 : (TinyXml_Document.loaded addr filename tree).rootNode = 0 := rfl
  have hd : (TinyXml_Document.loaded addr filename tree).document = tree := rfl
  have hl := node_lookup_self (TinyXml_Document.loaded addr filename tree)
    tree.FirstChildElement he
  have hn := node_inv (TinyXml_Document.loaded addr filename tree) tree.FirstChildElement hi
  have hf := node_fields (TinyXml_Document.loaded addr filename tree) tree.FirstChildElement
  have hderef : ∀ type, ((TinyXml_Document.loaded addr filename tree).root type).2.deref
      ((TinyXml_Document.loaded addr filename tree).node tree.FirstChildElement).1 =
        some { document := addr, node := tree.FirstChildElement } := by
    intro type
    rw [root_state_of_unresolved _ type h0 (by rw [hd]; exact he)]
    have he3 := (hn.entries _ _ hl.1).2.2
    rw [hf.1] at he3
    simp only [TinyXml_Document.deref, hd, hl.2, if_false]
    exact he3
  refine ⟨((TinyXml_Document.loaded addr filename tree).node tree.FirstChildElement).1,
    hl.2, ?_, hderef _, ?_, hderef _, ?_⟩
  · rw [root_of_unresolved _ _ hi h0 (by rw [hd]; exact he), hd]
    simp
  · rw [root_of_unresolved _ _ hi h0 (by rw [hd]; exact he), hd]
    simp
  · simp [TinyXml_Node.ne]

theorem root_fresh_succeeds_witness :
    treeA.FirstChildElement ≠ 0 ∧
    ∃ w, w ≠ 0 ∧
      ((TinyXml_Document.loaded 100 "a.xml" treeA).root
        (treeA.Value treeA.FirstChildElement)).1 = .returned w ∧
      ((TinyXml_Document.loaded 100 "a.xml" treeA).root
        (treeA.Value treeA.FirstChildElement)).2.deref w =
          some { document := 100, node := treeA.FirstChildElement } ∧
      ((TinyXml_Document.loaded 100 "a.xml" treeA).root "").1 = .returned w ∧
      ((TinyXml_Document.loaded 100 "a.xml" treeA).root "").2.deref w =
          some { document := 100, node := treeA.FirstChildElement } ∧
      TinyXml_Node.ne treeA { document := 100, node := treeA.FirstChildElement }
        (treeA.Value treeA.FirstChildElement) = false :=
  ⟨by decide, root_fresh_succeeds 100 "a.xml" treeA (by decide)⟩

/-- C7: for a document that has a top-level element, in every state reached by
`node` and `root` calls the unconstrained call `root("")` returns a non-null
wrapper; all wrappers returned by the successful `root` calls of a call sequence
are one and the same; and once the root reference is present, no `node` or
`root` call changes it. -/
theorem root_resolved_is_stable (addr : Nat) (filename : String) (tree : TiXmlDocument)
    (he : tree.FirstChildElement ≠ 0) (cs : List Call) :
    (∃ w, w ≠ 0 ∧
      (((TinyXml_Document.loaded addr filename tree).run cs).root "").1 = .returned w) ∧
    (∀ w1 ∈ (TinyXml_Document.loaded addr filename tree).rootResults cs,
      ∀ w2 ∈ (TinyXml_Document.loaded addr filename tree).rootResults cs, w1 = w2) ∧
    (((TinyXml_Document.loaded addr filename tree).run cs).rootNode ≠ 0 →
      ∀ c, (((TinyXml_Document.loaded addr filename tree).run cs).step c).rootNode =
        ((TinyXml_Document.loaded addr filename tree).run cs).rootNode) := by
  have hi := reachable_inv addr filename tree cs
  have hf := run_fields (TinyXml_Document.loaded addr filename tree) cs
  have hdoc : ((TinyXml_Document.loaded addr filename tree).run cs).document = tree := hf.2.2
  refine ⟨?_, ?_, ?_⟩
  · by_cases h0 : ((TinyXml_Document.loaded addr filename tree).run cs).rootNode = 0
    · have hl := node_lookup_self ((TinyXml_Document.loaded addr filename tree).run cs)
        tree.FirstChildElement he
      refine ⟨_, hl.2, ?_⟩
      rw [root_of_unresolved _ _ hi h0 (by rw [hdoc]; exact he), hdoc]
      simp
    · exact ⟨_, h0, by rw [root_of_resolved _ _ h0]⟩
  · intro w1 h1 w2 h2
    have e1 := rootResults_lookup _ cs (loaded_inv addr filename tree) he w1 h1
    have e2 := rootResults_lookup _ cs (loaded_inv addr filename tree) he w2 h2
    rw [e1] at e2
    injection e2
  · intro h0 c
    exact step_rootNode_keep _ c h0

theorem root_resolved_is_stable_witness :
    treeA.FirstChildElement ≠ 0 ∧
    (∃ w, w ≠ 0 ∧
      (((TinyXml_Document.loaded 100 "a.xml" treeA).run
        [.root "b", .node 7, .root "", .root "a"]).root "").1 = .returned w) ∧
    (∀ w1 ∈ (TinyXml_Document.loaded 100 "a.xml" treeA).rootResults
        [.root "b", .node 7, .root "", .root "a"],
      ∀ w2 ∈ (TinyXml_Document.loaded 100 "a.xml" treeA).rootResults
        [.root "b", .node 7, .root "", .root "a"], w1 = w2) ∧
    (((TinyXml_Document.loaded 100 "a.xml" treeA).run
        [.root "b", .node 7, .root "", .root "a"]).rootNode ≠ 0 →
      ∀ c, (((TinyXml_Document.loaded 100 "a.xml" treeA).run
          [.root "b", .node 7, .root "", .root "a"]).step c).rootNode =
        ((TinyXml_Document.loaded 100 "a.xml" treeA).run
          [.root "b", .node 7, .root "", .root "a"]).rootNode) :=
  ⟨by decide, root_resolved_is_stable 100 "a.xml" treeA (by decide)
    [.root "b", .node 7, .root "", .root "a"]⟩

/-- C8: for a document with first top-level element `e`, in every reachable
state: when `root(type)` returns a wrapper, the cache holds that wrapper under
key `e` after the call and every later `node(e)` returns it; and when `node(e)`
was called first, a later `root(type)` that returns a wrapper returns the one
`node(e)` returned. -/
theorem root_goes_through_cache (addr : Nat) (filename : String) (tree : TiXmlDocument)
    (he : tree.FirstChildElement ≠ 0) (cs1 cs2 : List Call) (type : String) (w : Nat) :
    ((((TinyXml_Document.loaded addr filename tree).run cs1).root type).1 = .returned w →
      (((TinyXml_Document.loaded addr filename tree).run cs1).root type).2.nodes.lookup
          tree.FirstChildElement = some w ∧
      (((((TinyXml_Document.loaded addr filename tree).run cs1).root type).2.run cs2).node
          tree.FirstChildElement).1 = w) ∧
    ((((((TinyXml_Document.loaded addr filename tree).run cs1).node
          tree.FirstChildElement).2.run cs2).root type).1 = .returned w →
      (((TinyXml_Document.loaded addr filename tree).run cs1).node
          tree.FirstChildElement).1 = w) := by
  have hi := reachable_inv addr filename tree cs1
  have hf := run_fields (TinyXml_Document.loaded addr filename tree) cs1
  have hdoc : ((TinyXml_Document.loaded addr filename tree).run cs1).document = tree :=
    hf.2.2
  constructor
  · intro hr
    have hl := root_returned_lookup _ type w hi (by rw [hdoc]; exact he) hr
    rw [hdoc] at hl
    refine ⟨hl.1, ?_⟩
    have hk := run_lookup_keep _ cs2 _ w hl.2.1 hl.1
    rw [node_of_cached _ _ w he hl.2.1 hk]
  · intro hr
    have hl := node_lookup_self ((TinyXml_Document.loaded addr filename tree).run cs1)
      tree.FirstChildElement he
    have hn := node_inv _ tree.FirstChildElement hi
    have hk := run_lookup_keep _ cs2 _ _ hl.2 hl.1
    have hi2 := run_inv _ cs2 hn
    have hd2 : ((((TinyXml_Document.loaded addr filename tree).run cs1).node
        tree.FirstChildElement).2.run cs2).document = tree := by
      rw [(run_fields _ cs2).2.2, (node_fields _ _).2.2.1, hdoc]
    have hl2 := root_returned_lookup _ type w hi2 (by rw [hd2]; exact he) hr
    rw [hd2] at hl2
    have hk2 := root_lookup_keep _ type _ _ hl.2 hk
    rw [hl2.1] at hk2
    injection hk2 with hk3
    exact hk3.symm

theorem root_goes_through_cache_witness :
    treeA.FirstChildElement ≠ 0 ∧
    ((((TinyXml_Document.loaded 100 "a.xml" treeA).run [.node 6]).root "a").1 =
        .returned 2 →
      (((TinyXml_Document.loaded 100 "a.xml" treeA).run [.node 6]).root "a").2.nodes.lookup
          treeA.FirstChildElement = some 2 ∧
      (((((TinyXml_Document.loaded 100 "a.xml" treeA).run [.node 6]).root "a").2.run
          [.node 8]).node treeA.FirstChildElement).1 = 2) ∧
    ((((((TinyXml_Document.loaded 100 "a.xml" treeA).run [.node 6]).node
          treeA.FirstChildElement).2.run [.node 8]).root "a").1 = .returned 2 →
      (((TinyXml_Document.loaded 100 "a.xml" treeA).run [.node 6]).node
          treeA.FirstChildElement).1 = 2) ∧
    (((TinyXml_Document.loaded 100 "a.xml" treeA).run [.node 6]).root "a").1 = .returned 2 :=
  ⟨by decide,
    (root_goes_through_cache 100 "a.xml" treeA (by decide) [.node 6] [.node 8] "a" 2).1,
    (root_goes_through_cache 100 "a.xml" treeA (by decide) [.node 6] [.node 8] "a" 2).2,
    by decide⟩

/-- C9: in every document state, `node(NULL)` returns `NULL` without throwing and
leaves the whole state, node cache and root reference included, unchanged. -/
theorem node_null_returns_null (s : TinyXml_Document) : s.node 0 = (0, s) := by
  simp [TinyXml_Document.node]

/-- C10: in every state reached from a freshly loaded document by `node` and
`root` calls, for every handle `h` with a cache entry `h -> w`, `node(h)` returns
`w` and leaves the whole state unchanged: cache, root reference and the
allocated wrappers. -/
theorem node_cached_returns_entry (addr : Nat) (filename : String) (tree : TiXmlDocument)
    (cs : List Call) (h w : Nat)
    (hl : ((TinyXml_Document.loaded addr filename tree).run cs).nodes.lookup h = some w) :
    ((TinyXml_Document.loaded addr filename tree).run cs).node h =
      (w, (TinyXml_Document.loaded addr filename tree).run cs) := by
  have hi := reachable_inv addr filename tree cs
  have he := hi.entries h w hl
  exact node_of_cached _ h w he.1 he.2.1 hl

theorem node_cached_returns_entry_witness :
    List.lookup 5 ((TinyXml_Document.loaded 100 "a.xml" treeA).run
      [.node 5, .root "b", .node 3]).nodes = some 1 ∧
    ((TinyXml_Document.loaded 100 "a.xml" treeA).run [.node 5, .root "b", .node 3]).node 5 =
      (1, (TinyXml_Document.loaded 100 "a.xml" treeA).run [.node 5, .root "b", .node 3]) :=
  ⟨by decide,
    node_cached_returns_entry 100 "a.xml" treeA [.node 5, .root "b", .node 3] 5 1 (by decide)⟩

theorem length_hmapSet (m : List (Nat × Nat)) (k v : Nat) (hn : m.lookup k = none) :
    (hmapSet m k v).length = m.length + 1 := by
  induction m with
  | nil => simp [hmapSet]
  | cons p rest ih =>
    obtain ⟨a, b⟩ := p
    rw [lookup_cons_eq] at hn
    have hka : k ≠ a := by
      intro hk
      simp [hk] at hn
    have hrest : rest.lookup k = none := by
      simpa [hka] using hn
    unfold hmapSet
    by_cases h1 : k < a
    · simp [h1]
    · simp [h1, hka, ih hrest]

theorem try_get_by_key_none (m : List (Nat × Nat)) (k d : Nat) (h : m.lookup k = none) :
    try_get_by_key m k d = d := by
  simp [try_get_by_key, h]

/-- C11: in every state reached from a freshly loaded document, for every
non-null handle `h` without a cache entry, `node(h)` returns a wrapper that was
not allocated before and is no wrapper of the cache, the wrapper is bound to
this document and `h`, the cache afterwards maps `h` to it and every other
handle to what it was mapped to before, it has one entry more, and the root
reference is unchanged; and no `node` call at all removes or replaces an
entry. -/
theorem node_uncached_adds_one_entry (addr : Nat) (filename : String)
    (tree : TiXmlDocument) (cs : List Call) (h : Nat) (hh : h ≠ 0)
    (hn : ((TinyXml_Document.loaded addr filename tree).run cs).nodes.lookup h = none) :
    ((TinyXml_Document.loaded addr filename tree).run cs).deref
        (((TinyXml_Document.loaded addr filename tree).run cs).node h).1 = none ∧
    (∀ k v, ((TinyXml_Document.loaded addr filename tree).run cs).nodes.lookup k = some v →
        v ≠ (((TinyXml_Document.loaded addr filename tree).run cs).node h).1) ∧
    (((TinyXml_Document.loaded addr filename tree).run cs).node h).2.deref
        (((TinyXml_Document.loaded addr filename tree).run cs).node h).1 =
      some { document := addr, node := h } ∧
    (∀ k, (((TinyXml_Document.loaded addr filename tree).run cs).node h).2.nodes.lookup k =
        if k = h then some (((TinyXml_Document.loaded addr filename tree).run cs).node h).1
        else ((TinyXml_Document.loaded addr filename tree).run cs).nodes.lookup k) ∧
    (((TinyXml_Document.loaded addr filename tree).run cs).node h).2.nodes.length =
      ((TinyXml_Document.loaded addr filename tree).run cs).nodes.length + 1 ∧
    (((TinyXml_Document.loaded addr filename tree).run cs).node h).2.rootNode =
      ((TinyXml_Document.loaded addr filename tree).run cs).rootNode ∧
    (∀ h2 k v, ((TinyXml_Document.loaded addr filename tree).run cs).nodes.lookup k = some v →
        (((TinyXml_Document.loaded addr filename tree).run cs).node h2).2.nodes.lookup k =
          some v) := by
  have hi := reachable_inv addr filename tree cs
  have hf := run_fields (TinyXml_Document.loaded addr filename tree) cs
  have haddr : ((TinyXml_Document.loaded addr filename tree).run cs).addr = addr := hf.1
  generalize (TinyXml_Document.loaded addr filename tree).run cs = s at *
  rw [node_of_absent s h hh (try_get_by_key_none _ _ _ hn)]
  refine ⟨?_, ?_, ?_, ?_, ?_, rfl, ?_⟩
  · simp [TinyXml_Document.deref]
  · intro k v hl hv
    have he := (hi.entries k v hl).2.2
    have hlt : v - 1 < s.heap.length := by
      by_contra hc
      rw [List.getElem?_eq_none (Nat.le_of_not_lt hc)] at he
      exact Option.noConfusion he
    simp only at hv
    omega
  · simp [TinyXml_Document.deref, haddr]
  · intro k
    simp only [lookup_hmapSet]
  · simp only [length_hmapSet _ _ _ hn]
  · intro h2 k v hl
    exact node_lookup_keep s h2 k v (hi.entries k v hl).2.1 hl

theorem node_uncached_adds_one_entry_witness :
    (7 : Nat) ≠ 0 ∧
    ((TinyXml_Document.loaded 100 "a.xml" treeA).run [.node 5, .root ""]).nodes.lookup 7 =
      none ∧
    (((TinyXml_Document.loaded 100 "a.xml" treeA).run [.node 5, .root ""]).node 7).1 = 3 ∧
    (((TinyXml_Document.loaded 100 "a.xml" treeA).run [.node 5, .root ""]).node 7).2.deref
        (((TinyXml_Document.loaded 100 "a.xml" treeA).run [.node 5, .root ""]).node 7).1 =
      some { document := 100, node := 7 } ∧
    (((TinyXml_Document.loaded 100 "a.xml" treeA).run [.node 5, .root ""]).node 7).2.nodes =
      [(1, 2), (5, 1), (7, 3)] :=
  ⟨by decide, by decide, by decide,
    (node_uncached_adds_one_entry 100 "a.xml" treeA [.node 5, .root ""] 7 (by decide)
      (by decide)).2.2.1,
    by decide⟩

/-! ## The error report -/

theorem toString_natCast (n : Nat) : toString ((n : Nat) : Int) = toString n := rfl

theorem rowColumnText_natCast (row col : Nat) :
    rowColumnText (row : Int) (col : Int) =
      " [row " ++ toString row ++ ", column " ++ toString col ++ "]" := rfl

theorem separator_eq :
    "\n----------------------------------------------------------\n" =
      "\n" ++ String.mk (List.replicate 58 '-') ++ "\n" ∧
    "\n----------------------------------------------------------" =
      "\n" ++ String.mk (List.replicate 58 '-') := by
  decide

theorem harrayAt_in_range (a : List String) (row : Int) (h1 : 1 ≤ row)
    (h2 : row ≤ (a.length : Int)) :
    ∃ line, a[(row - 1).toNat]? = some line ∧ harrayAt a (row - 1) = some line := by
  have hlt : (row - 1).toNat < a.length := by omega
  refine ⟨a[(row - 1).toNat], List.getElem?_eq_getElem hlt, ?_⟩
  have h0 : (0 : Int) ≤ row - 1 := by omega
  simp only [harrayAt, h0, if_true]
  exact List.getElem?_eq_getElem hlt

theorem errorReport_unknown_row (desc : String) (col : Int) (data : String) :
    errorReport desc 0 col data = { lookups := [], desc := some desc } := by
  simp [errorReport]

theorem errorReport_in_range (desc : String) (row col : Int) (data : String)
    (h1 : 1 ≤ row) (h2 : row ≤ ((hstr.split data).length : Int)) :
    ∃ line, (hstr.split data)[(row - 1).toNat]? = some line ∧
      errorReport desc row col data =
        { lookups := [row - 1],
          desc := some (desc ++ rowColumnText row col ++
            "\n----------------------------------------------------------\n" ++
            hstr.trim line ++
            "\n----------------------------------------------------------") } := by
  obtain ⟨line, hl1, hl2⟩ := harrayAt_in_range (hstr.split data) row h1 h2
  refine ⟨line, hl1, ?_⟩
  have h0 : row ≠ 0 := by omega
  simp only [errorReport, h0, ne_eq, not_false_eq_true, if_true, ge_iff_le, h2, hl2]

theorem errorReport_above_range (desc : String) (row col : Int) (data : String)
    (h : ((hstr.split data).length : Int) < row) :
    errorReport desc row col data =
      { lookups := [], desc := some (desc ++ rowColumnText row col) } := by
  have h0 : row ≠ 0 := by omega
  have h2 : ¬ row ≤ ((hstr.split data).length : Int) := by omega
  simp only [errorReport, h0, ne_eq, not_false_eq_true, if_true, ge_iff_le, h2, if_false]

theorem errorReport_negative_row (desc : String) (row col : Int) (data : String)
    (h : row < 0) :
    errorReport desc row col data = { lookups := [row - 1], desc := none } := by
  have h0 : row ≠ 0 := by omega
  have h2 : row ≤ ((hstr.split data).length : Int) := by omega
  have h3 : ¬ (0 : Int) ≤ row - 1 := by omega
  simp only [errorReport, h0, ne_eq, not_false_eq_true, if_true, ge_iff_le, h2, harrayAt,
    h3, if_false]

/-- Every description the report yields for a known row starts with the
description of the parser followed by the row and column text. -/
theorem errorReport_known_row (desc : String) (row col : Int) (data : String)
    (h0 : row ≠ 0) (d : String) (hd : (errorReport desc row col data).desc = some d) :
    d = desc ++ rowColumnText row col ∨
    ∃ line, d = desc ++ rowColumnText row col ++
        "\n----------------------------------------------------------\n" ++
        hstr.trim line ++
        "\n----------------------------------------------------------" := by
  by_cases h2 : row ≤ ((hstr.split data).length : Int)
  · by_cases h1 : 1 ≤ row
    · obtain ⟨line, _, he⟩ := errorReport_in_range desc row col data h1 h2
      rw [he] at hd
      right
      exact ⟨line, (Option.some.inj hd).symm⟩
    · rw [errorReport_negative_row desc row col data (by omega)] at hd
      exact Option.noConfusion hd
  · rw [errorReport_above_range desc row col data (by omega)] at hd
    left
    exact (Option.some.inj hd).symm

/-- For a row the parser can report, the report always yields a description. -/
theorem errorReport_natCast_some (desc : String) (row col : Nat) (data : String) :
    ∃ d, (errorReport desc (row : Int) (col : Int) data).desc = some d := by
  by_cases h0 : row = 0
  · subst h0
    exact ⟨desc, by rw [Nat.cast_zero, errorReport_unknown_row]⟩
  · by_cases h2 : (row : Int) ≤ ((hstr.split data).length : Int)
    · obtain ⟨line, _, he⟩ :=
        errorReport_in_range desc (row : Int) (col : Int) data (by omega) h2
      exact ⟨_, by rw [he]⟩
    · exact ⟨_, by rw [errorReport_above_range desc (row : Int) (col : Int) data (by omega)]⟩

theorem splitChars_no_sep (sep : Char) (cs : List Char) :
    ∀ piece ∈ splitChars sep cs, sep ∉ piece := by
  induction cs with
  | nil =>
    intro piece hp
    simp [splitChars] at hp
    simp [hp]
  | cons c cs ih =>
    intro piece hp
    unfold splitChars at hp
    by_cases hc : c = sep
    · simp only [hc, if_true, List.mem_cons] at hp
      rcases hp with hp | hp
      · simp [hp]
      · exact ih piece hp
    · simp only [hc, if_false] at hp
      cases hs : splitChars sep cs with
      | nil =>
        rw [hs] at hp
        simp only [List.mem_singleton] at hp
        subst hp
        simp only [List.mem_singleton]
        exact fun h => hc h.symm
      | cons q qs =>
        rw [hs] at hp ih
        simp only [List.mem_cons] at hp
        rcases hp with hp | hp
        · subst hp
          simp only [List.mem_cons, not_or]
          exact ⟨fun h => hc h.symm, ih q (List.mem_cons_self _ _)⟩
        · exact ih piece (List.mem_cons_of_mem _ hp)

theorem trim_line_no_newline (data line : String) (i : Nat)
    (h : (hstr.split data)[i]? = some line) :
    Char.ofNat 10 ∉ (hstr.trim line).data := by
  have hm : line ∈ hstr.split data := List.getElem?_mem h
  simp only [hstr.split, List.mem_map] at hm
  obtain ⟨piece, hp, rfl⟩ := hm
  have hno := splitChars_no_sep (Char.ofNat 10) data.data piece hp
  intro hc
  simp only [hstr.trim, List.mem_reverse] at hc
  have h1 := (List.dropWhile_sublist _).mem hc
  rw [List.mem_reverse] at h1
  have h2 := (List.dropWhile_sublist _).mem h1
  exact hno h2

/-! ## The constructor -/

theorem construct_read_failed (env : Collaborators) (addr : Nat) (filename : String)
    (e : ResourceError) (hr : env.hread filename = .error e) :
    TinyXml_Document.construct env addr filename =
      ([.normalize filename, .hread filename], .readFailed e) := by
  simp [TinyXml_Document.construct, hr]

theorem construct_parsed (env : Collaborators) (addr : Nat) (filename data : String)
    (hr : env.hread filename = .ok data) (he : (env.Parse data).Error = false) :
    TinyXml_Document.construct env addr filename =
      ([.normalize filename, .hread filename, .parse data],
        .document (TinyXml_Document.loaded addr filename (env.Parse data).tree)) := by
  simp [TinyXml_Document.construct, hr, he]

theorem construct_parse_failed (env : Collaborators) (addr : Nat) (filename data d : String)
    (hr : env.hread filename = .ok data) (he : (env.Parse data).Error = true)
    (hd : (errorReport (env.Parse data).ErrorDesc ((env.Parse data).ErrorRow : Int)
      ((env.Parse data).ErrorCol : Int) data).desc = some d) :
    TinyXml_Document.construct env addr filename =
      ([.normalize filename, .hread filename, .parse data],
        .parseFailed ⟨errorMessage (env.normalize filename) d⟩) := by
  simp [TinyXml_Document.construct, hr, he, hd]

/-- With an unknown row the message is the text of line 46 around the
description of the parser, with nothing appended. -/
theorem construct_unknown_row (env : Collaborators) (addr : Nat) (filename data : String)
    (hr : env.hread filename = .ok data) (he : (env.Parse data).Error = true)
    (hrow : (env.Parse data).ErrorRow = 0) :
    (TinyXml_Document.construct env addr filename).2 =
      .parseFailed ⟨"An error occcured parsing XML file '" ++ env.normalize filename ++
        "': " ++ (env.Parse data).ErrorDesc⟩ := by
  have hd : (errorReport (env.Parse data).ErrorDesc ((env.Parse data).ErrorRow : Int)
      ((env.Parse data).ErrorCol : Int) data).desc = some (env.Parse data).ErrorDesc := by
    rw [hrow, Nat.cast_zero, errorReport_unknown_row]
  rw [construct_parse_failed env addr filename data _ hr he hd]
  rfl

/-- C12 at the failing input: for an empty resource, which the parser rejects
with "Error document empty." and no location, the message of the exception
reads "An error occcured parsing ..." and so differs from the text
"An error occurred parsing XML file 'a.xml': Error document empty.". -/
theorem parse_error_message_misspelt :
    ((readable "" (parseError "Error document empty." 0 0)).Parse "").ErrorRow = 0 ∧
    (TinyXml_Document.construct (readable "" (parseError "Error document empty." 0 0))
        100 "a.xml").2 =
      .parseFailed ⟨"An error occcured parsing XML file 'a.xml': Error document empty."⟩ ∧
    "An error occcured parsing XML file 'a.xml': Error document empty." ≠
      "An error occurred parsing XML file 'a.xml': Error document empty." := by
  refine ⟨rfl, ?_, by decide⟩
  exact construct_unknown_row (readable "" (parseError "Error document empty." 0 0))
    100 "a.xml" "" rfl rfl rfl

/-- C13: when the resource is readable and the parser reports an error with a
row other than 0, the constructor throws the `XMLException` whose message is
`An error occcured parsing XML file '<path>': `, then the description of the
parser, then directly after it the text ` [row <row>, column <col>]` with row
and column in decimal, then either nothing or the quoted-line block. -/
theorem parse_error_row_column_appended (env : Collaborators) (addr : Nat)
    (filename data : String) (hr : env.hread filename = .ok data)
    (he : (env.Parse data).Error = true) (hrow : (env.Parse data).ErrorRow ≠ 0) :
    ∃ rest,
      (TinyXml_Document.construct env addr filename).2 =
        .parseFailed
          ⟨"An error occcured parsing XML file '" ++ env.normalize filename ++ "': " ++
            ((env.Parse data).ErrorDesc ++
              (" [row " ++ toString (env.Parse data).ErrorRow ++ ", column " ++
                toString (env.Parse data).ErrorCol ++ "]") ++ rest)⟩ ∧
      (rest = "" ∨ ∃ line, rest =
        "\n----------------------------------------------------------\n" ++
          hstr.trim line ++
          "\n----------------------------------------------------------") := by
  obtain ⟨d, hd⟩ := errorReport_natCast_some (env.Parse data).ErrorDesc
    (env.Parse data).ErrorRow (env.Parse data).ErrorCol data
  have h0 : ((env.Parse data).ErrorRow : Int) ≠ 0 := by
    intro hc
    exact hrow (by exact_mod_cast hc)
  rw [construct_parse_failed env addr filename data d hr he hd]
  rcases errorReport_known_row _ _ _ _ h0 d hd with h | ⟨line, h⟩
  · refine ⟨"", ?_, Or.inl rfl⟩
    rw [h, rowColumnText_natCast, String.append_empty]
    rfl
  · refine ⟨_, ?_, Or.inr ⟨line, rfl⟩⟩
    rw [h, rowColumnText_natCast]
    simp only [errorMessage, String.append_assoc]

theorem parse_error_row_column_appended_witness :
    (readable "<a><b></a>" (parseError "Error reading end tag." 1 8)).hread "a.xml" =
      .ok "<a><b></a>" ∧
    ((readable "<a><b></a>" (parseError "Error reading end tag." 1 8)).Parse
      "<a><b></a>").ErrorRow ≠ 0 ∧
    ∃ rest,
      (TinyXml_Document.construct
          (readable "<a><b></a>" (parseError "Error reading end tag." 1 8)) 100 "a.xml").2 =
        .parseFailed
          ⟨"An error occcured parsing XML file '" ++ "a.xml" ++ "': " ++
            ("Error reading end tag." ++
              (" [row " ++ toString 1 ++ ", column " ++ toString 8 ++ "]") ++ rest)⟩ ∧
      (rest = "" ∨ ∃ line, rest =
        "\n----------------------------------------------------------\n" ++
          hstr.trim line ++
          "\n----------------------------------------------------------") :=
  ⟨rfl, by decide,
    parse_error_row_column_appended
      (readable "<a><b></a>" (parseError "Error reading end tag." 1 8)) 100 "a.xml"
      "<a><b></a>" rfl rfl (by decide)⟩

/-- C14: when the resource is readable and the parser reports an error at a row
`R` with `1 ≤ R ≤` the number of lines of the text, the message of the
`XMLException` ends, after the row and column text, with a line break, a line of
58 dashes, the trimmed text of element `R - 1` of the split (which holds no line
break), and a second line of 58 dashes. -/
theorem parse_error_quotes_line (env : Collaborators) (addr : Nat)
    (filename data : String) (hr : env.hread filename = .ok data)
    (he : (env.Parse data).Error = true) (h1 : 1 ≤ (env.Parse data).ErrorRow)
    (h2 : (env.Parse data).ErrorRow ≤ (hstr.split data).length) :
    ∃ line, (hstr.split data)[(env.Parse data).ErrorRow - 1]? = some line ∧
      Char.ofNat 10 ∉ (hstr.trim line).data ∧
      (TinyXml_Document.construct env addr filename).2 =
        .parseFailed
          ⟨"An error occcured parsing XML file '" ++ env.normalize filename ++ "': " ++
            ((env.Parse data).ErrorDesc ++
              (" [row " ++ toString (env.Parse data).ErrorRow ++ ", column " ++
                toString (env.Parse data).ErrorCol ++ "]") ++
              "\n" ++ String.mk (List.replicate 58 '-') ++ "\n" ++
              hstr.trim line ++
              "\n" ++ String.mk (List.replicate 58 '-'))⟩ := by
  obtain ⟨line, hl, hrep⟩ := errorReport_in_range (env.Parse data).ErrorDesc
    ((env.Parse data).ErrorRow : Int) ((env.Parse data).ErrorCol : Int) data
    (by omega) (by omega)
  have hidx : (((env.Parse data).ErrorRow : Int) - 1).toNat = (env.Parse data).ErrorRow - 1 := by
    omega
  rw [hidx] at hl
  refine ⟨line, hl, trim_line_no_newline data line _ hl, ?_⟩
  have hd := congrArg ErrorReport.desc hrep
  rw [construct_parse_failed env addr filename data _ hr he hd, rowColumnText_natCast,
    separator_eq.1, separator_eq.2]
  simp only [errorMessage, String.append_assoc]

theorem parse_error_quotes_line_witness :
    (readable "<a>\n  <b></a>  " (parseError "Error reading end tag." 2 6)).hread "a.xml" =
      .ok "<a>\n  <b></a>  " ∧
    1 ≤ ((readable "<a>\n  <b></a>  " (parseError "Error reading end tag." 2 6)).Parse
      "<a>\n  <b></a>  ").ErrorRow ∧
    ((readable "<a>\n  <b></a>  " (parseError "Error reading end tag." 2 6)).Parse
      "<a>\n  <b></a>  ").ErrorRow ≤ (hstr.split "<a>\n  <b></a>  ").length ∧
    hstr.split "<a>\n  <b></a>  " = ["<a>", "  <b></a>  "] ∧
    hstr.trim "  <b></a>  " = "<b></a>" ∧
    ∃ line, (hstr.split "<a>\n  <b></a>  ")[2 - 1]? = some line ∧
      Char.ofNat 10 ∉ (hstr.trim line).data ∧
      (TinyXml_Document.construct
          (readable "<a>\n  <b></a>  " (parseError "Error reading end tag." 2 6))
          100 "a.xml").2 =
        .parseFailed
          ⟨"An error occcured parsing XML file '" ++ "a.xml" ++ "': " ++
            ("Error reading end tag." ++
              (" [row " ++ toString 2 ++ ", column " ++ toString 6 ++ "]") ++
              "\n" ++ String.mk (List.replicate 58 '-') ++ "\n" ++
              hstr.trim line ++
              "\n" ++ String.mk (List.replicate 58 '-'))⟩ :=
  ⟨rfl, by decide, by decide, by decide, by decide,
    parse_error_quotes_line
      (readable "<a>\n  <b></a>  " (parseError "Error reading end tag." 2 6)) 100 "a.xml"
      "<a>\n  <b></a>  " rfl rfl (by decide) (by decide)⟩

/-- C16: when `hresource::hread` fails for the file name, the constructor ends
with exactly the exception `hread` raised, the only collaborator calls are
`normalize` and `hread`, the parser is not called (and the outcome does not
depend on the parser), and no document results. -/
theorem read_failure_propagates (env : Collaborators) (addr : Nat) (filename : String)
    (e : ResourceError) (hr : env.hread filename = .error e) :
    TinyXml_Document.construct env addr filename =
      ([.normalize filename, .hread filename], .readFailed e) ∧
    (∀ data, LoadEvent.parse data ∉ (TinyXml_Document.construct env addr filename).1) ∧
    (∀ d, (TinyXml_Document.construct env addr filename).2 ≠ .document d) ∧
    (∀ parse, TinyXml_Document.construct { env with Parse := parse } addr filename =
      TinyXml_Document.construct env addr filename) := by
  have hc := construct_read_failed env addr filename e hr
  refine ⟨hc, ?_, ?_, ?_⟩
  · intro data
    rw [hc]
    simp
  · intro d
    rw [hc]
    exact fun hd => Constructed.noConfusion hd
  · intro parse
    rw [hc]
    exact construct_read_failed { env with Parse := parse } addr filename e hr

theorem read_failure_propagates_witness :
    unreadable.hread "missing.xml" = .error ⟨"Could not open file 'missing.xml'!"⟩ ∧
    TinyXml_Document.construct unreadable 100 "missing.xml" =
      ([.normalize "missing.xml", .hread "missing.xml"],
        .readFailed ⟨"Could not open file 'missing.xml'!"⟩) ∧
    (∀ data, LoadEvent.parse data ∉
      (TinyXml_Document.construct unreadable 100 "missing.xml").1) ∧
    (∀ d, (TinyXml_Document.construct unreadable 100 "missing.xml").2 ≠ .document d) ∧
    (∀ parse, TinyXml_Document.construct { unreadable with Parse := parse } 100
        "missing.xml" =
      TinyXml_Document.construct unreadable 100 "missing.xml") :=
  ⟨rfl,
    read_failure_propagates unreadable 100 "missing.xml"
      ⟨"Could not open file 'missing.xml'!"⟩ rfl⟩

theorem mem_of_lookup (m : List (Nat × Nat)) (k v : Nat) (h : m.lookup k = some v) :
    (k, v) ∈ m := by
  induction m with
  | nil => simp at h
  | cons p rest ih =>
    obtain ⟨a, b⟩ := p
    rw [lookup_cons_eq] at h
    by_cases hk : k = a
    · simp only [hk, if_true, Option.some.injEq] at h
      simp [hk, h]
    · simp only [hk, if_false] at h
      exact List.mem_cons_of_mem _ (ih h)

theorem lookup_of_mem (m : List (Nat × Nat)) (hd : (m.map Prod.fst).Nodup) (k v : Nat)
    (h : (k, v) ∈ m) : m.lookup k = some v := by
  induction m with
  | nil => simp at h
  | cons p rest ih =>
    obtain ⟨a, b⟩ := p
    simp only [List.map_cons, List.nodup_cons] at hd
    rw [lookup_cons_eq]
    simp only [List.mem_cons, Prod.mk.injEq] at h
    rcases h with ⟨h1, h2⟩ | h
    · simp [h1, h2]
    · have hka : k ≠ a := by
        intro hk
        apply hd.1
        rw [← hk]
        exact List.mem_map.mpr ⟨(k, v), h, rfl⟩
      simp only [hka, if_false]
      exact ih hd.2 h

theorem deleteWrappers_eq_map (m : List (Nat × Nat)) (h : ∀ p ∈ m, p.2 ≠ 0) :
    deleteWrappers m = m.map (fun p => Release.wrapper p.2) := by
  induction m with
  | nil => rfl
  | cons p rest ih =>
    obtain ⟨a, b⟩ := p
    have hb : b ≠ 0 := h (a, b) (List.mem_cons_self _ _)
    simp only [deleteWrappers, hb, if_false, List.map_cons]
    rw [ih (fun q hq => h q (List.mem_cons_of_mem _ hq))]

theorem inv_wrappers_nodup (s : TinyXml_Document) (hi : Inv s) :
    (s.nodes.map (fun p => Release.wrapper p.2)).Nodup := by
  refine List.Nodup.map_on ?_ (List.Nodup.of_map Prod.fst hi.keys)
  rintro ⟨k1, v1⟩ h1 ⟨k2, v2⟩ h2 hv
  have hv2 : v1 = v2 := by
    injection hv
  subst hv2
  have e1 := (hi.entries k1 v1 (lookup_of_mem _ hi.keys k1 v1 h1)).2.2
  have e2 := (hi.entries k2 v1 (lookup_of_mem _ hi.keys k2 v1 h2)).2.2
  rw [e1] at e2
  injection e2 with e3
  injection e3 with _ e4
  rw [e4]

theorem destroy_events (s : TinyXml_Document) (hi : Inv s) :
    s.destroy.1 = s.nodes.map (fun p => Release.wrapper p.2) ++ [Release.tree] := by
  have hnz : ∀ p ∈ s.nodes, p.2 ≠ 0 := by
    rintro ⟨k, v⟩ hp
    exact (hi.entries k v (lookup_of_mem _ hi.keys k v hp)).2.1
  simp only [TinyXml_Document.destroy, deleteWrappers_eq_map _ hnz]

theorem destroy_events_nodup (s : TinyXml_Document) (hi : Inv s) : s.destroy.1.Nodup := by
  rw [destroy_events s hi]
  refine List.Nodup.append (inv_wrappers_nodup s hi) (List.nodup_singleton _) ?_
  intro r h1 h2
  simp only [List.mem_singleton] at h2
  subst h2
  simp at h1

/-- C18: in every state reached from a freshly loaded document, the destructor
releases the wrappers of the node cache in map order and then the native tree:
every cached wrapper is released exactly once, nothing but cached wrappers and
the tree is released, the tree is released exactly once and last, and when the
body ends the node cache is empty and the root reference is null. -/
theorem destroy_releases_wrappers_then_tree (addr : Nat) (filename : String)
    (tree : TiXmlDocument) (cs : List Call) :
    ((TinyXml_Document.loaded addr filename tree).run cs).destroy.1 =
      ((TinyXml_Document.loaded addr filename tree).run cs).nodes.map
        (fun p => Release.wrapper p.2) ++ [Release.tree] ∧
    (∀ h w, ((TinyXml_Document.loaded addr filename tree).run cs).nodes.lookup h = some w →
      ((TinyXml_Document.loaded addr filename tree).run cs).destroy.1.count
        (Release.wrapper w) = 1) ∧
    (∀ w, Release.wrapper w ∈ ((TinyXml_Document.loaded addr filename tree).run cs).destroy.1 →
      ∃ h, ((TinyXml_Document.loaded addr filename tree).run cs).nodes.lookup h = some w) ∧
    ((TinyXml_Document.loaded addr filename tree).run cs).destroy.1.count Release.tree = 1 ∧
    ((TinyXml_Document.loaded addr filename tree).run cs).destroy.1.getLast? =
      some Release.tree ∧
    ((TinyXml_Document.loaded addr filename tree).run cs).destroy.2.nodes = [] ∧
    ((TinyXml_Document.loaded addr filename tree).run cs).destroy.2.rootNode = 0 := by
  have hi := reachable_inv addr filename tree cs
  generalize (TinyXml_Document.loaded addr filename tree).run cs = s at *
  have hev := destroy_events s hi
  have hnd := destroy_events_nodup s hi
  refine ⟨hev, ?_, ?_, ?_, ?_, rfl, rfl⟩
  · intro h w hl
    apply List.count_eq_one_of_mem hnd
    rw [hev]
    apply List.mem_append_left
    exact List.mem_map.mpr ⟨(h, w), mem_of_lookup _ h w hl, rfl⟩
  · intro w hw
    rw [hev] at hw
    simp only [List.mem_append, List.mem_map, List.mem_singleton] at hw
    rcases hw with ⟨⟨k, v⟩, hp, hv⟩ | hw
    · have hv2 : v = w := by
        injection hv
      subst hv2
      exact ⟨k, lookup_of_mem _ hi.keys k v hp⟩
    · exact Release.noConfusion hw
  · apply List.count_eq_one_of_mem hnd
    rw [hev]
    simp
  · rw [hev]
    exact List.getLast?_concat _

theorem destroy_releases_wrappers_then_tree_witness :
    ((TinyXml_Document.loaded 100 "a.xml" treeA).run [.node 5, .root "", .node 5]).destroy.1 =
      [Release.wrapper 2, Release.wrapper 1, Release.tree] ∧
    ((TinyXml_Document.loaded 100 "a.xml" treeA).run [.node 5, .root "", .node 5]).destroy.1 =
      ((TinyXml_Document.loaded 100 "a.xml" treeA).run [.node 5, .root "", .node 5]).nodes.map
        (fun p => Release.wrapper p.2) ++ [Release.tree] :=
  ⟨by decide,
    (destroy_releases_wrappers_then_tree 100 "a.xml" treeA [.node 5, .root "", .node 5]).1⟩

/-! ## Repeated `root` calls, the cache invariant, and the subscript -/

/-- Two consecutive calls `root(type)`: in a state that satisfies the invariant
the second call has the outcome of the first, except when the first call
resolved the root and then threw, in which case the second returns the
wrapper. -/
theorem root_twice (s : TinyXml_Document) (type : String) (hi : Inv s) :
    ((s.root type).2.root type).1 = (s.root type).1 ∨
    (s.rootNode = 0 ∧ s.document.FirstChildElement ≠ 0 ∧
      (∃ e, (s.root type).1 = .thrown e) ∧
      ((s.root type).2.root type).1 =
        .returned (s.node s.document.FirstChildElement).1) := by
  by_cases h0 : s.rootNode = 0
  · by_cases he : s.document.FirstChildElement = 0
    · left
      rw [root_of_no_element s type h0 he]
      exact congrArg Prod.fst (root_of_no_element s type h0 he)
    · have hl := node_lookup_self s s.document.FirstChildElement he
      have hsecond : ((s.root type).2.root type).1 =
          .returned (s.node s.document.FirstChildElement).1 := by
        rw [root_state_of_unresolved s type h0 he]
        rw [root_of_resolved _ type (by exact hl.2)]
      by_cases hm : type ≠ "" ∧ s.document.Value s.document.FirstChildElement ≠ type
      · right
        refine ⟨h0, he, ?_, hsecond⟩
        rw [root_of_unresolved s type hi h0 he, if_pos hm]
        exact ⟨_, rfl⟩
      · left
        rw [hsecond, root_of_unresolved s type hi h0 he, if_neg hm]
  · left
    rw [root_of_resolved s type h0]
    exact congrArg Prod.fst (root_of_resolved s type h0)

/-- C25 at the failing input: on the freshly loaded document `<a/>` the call
`root("b")` throws the type-mismatch exception, and the call `root("b")` made
right after it returns the wrapper of `<a>`; the two outcomes differ. -/
theorem root_retry_differs :
    docA.rootNode = 0 ∧
    (docA.root "b").1 = .thrown ⟨"Root node type is not 'b' in XML file 'a.xml'!"⟩ ∧
    ((docA.root "b").2.root "b").1 = .returned 1 ∧
    (docA.root "b").1 ≠ ((docA.root "b").2.root "b").1 := by
  decide

/-- C26: in every state reached from a freshly loaded document by `node` and
`root` calls, every cache entry `h -> w` has a non-null `h` and a non-null `w`
that is the address of a wrapper whose document is this document and whose
native node is `h`; and a root reference that is not null is the wrapper cached
under the first top-level element, which then exists. -/
theorem cache_entries_well_formed (addr : Nat) (filename : String) (tree : TiXmlDocument)
    (cs : List Call) :
    (∀ h w, ((TinyXml_Document.loaded addr filename tree).run cs).nodes.lookup h = some w →
      h ≠ 0 ∧ w ≠ 0 ∧
      ((TinyXml_Document.loaded addr filename tree).run cs).deref w =
        some { document := addr, node := h }) ∧
    (((TinyXml_Document.loaded addr filename tree).run cs).rootNode ≠ 0 →
      tree.FirstChildElement ≠ 0 ∧
      ((TinyXml_Document.loaded addr filename tree).run cs).nodes.lookup
          tree.FirstChildElement =
        some ((TinyXml_Document.loaded addr filename tree).run cs).rootNode) := by
  have hi := reachable_inv addr filename tree cs
  have hf := run_fields (TinyXml_Document.loaded addr filename tree) cs
  have haddr : ((TinyXml_Document.loaded addr filename tree).run cs).addr = addr := hf.1
  have hdoc : ((TinyXml_Document.loaded addr filename tree).run cs).document = tree := hf.2.2
  constructor
  · intro h w hl
    obtain ⟨e1, e2, e3⟩ := hi.entries h w hl
    refine ⟨e1, e2, ?_⟩
    rw [haddr] at e3
    simp only [TinyXml_Document.deref, e2, if_false]
    exact e3
  · intro hr
    have := hi.root hr
    rw [hdoc] at this
    exact this

theorem cache_entries_well_formed_witness :
    ((TinyXml_Document.loaded 100 "a.xml" treeA).run [.node 5, .root "b"]).nodes =
      [(1, 2), (5, 1)] ∧
    ((TinyXml_Document.loaded 100 "a.xml" treeA).run [.node 5, .root "b"]).rootNode = 2 ∧
    ((TinyXml_Document.loaded 100 "a.xml" treeA).run [.node 5, .root "b"]).deref 2 =
      some { document := 100, node := 1 } ∧
    (((TinyXml_Document.loaded 100 "a.xml" treeA).run [.node 5, .root "b"]).rootNode ≠ 0 →
      treeA.FirstChildElement ≠ 0 ∧
      ((TinyXml_Document.loaded 100 "a.xml" treeA).run [.node 5, .root "b"]).nodes.lookup
          treeA.FirstChildElement =
        some ((TinyXml_Document.loaded 100 "a.xml" treeA).run [.node 5, .root "b"]).rootNode) :=
  ⟨by decide, by decide, by decide,
    (cache_entries_well_formed 100 "a.xml" treeA [.node 5, .root "b"]).2⟩

/-- For a row that is not negative, every index at which the error report
subscripts `lines` is `row - 1` and lies within `0 .. lines.size() - 1`. -/
theorem errorReport_lookups_in_bounds (desc : String) (row col : Int)
    (data : String) (h : 0 ≤ row) :
    ∀ i ∈ (errorReport desc row col data).lookups,
      i = row - 1 ∧ 0 ≤ i ∧ i ≤ ((hstr.split data).length : Int) - 1 ∧
      ∃ line, harrayAt (hstr.split data) i = some line := by
  intro i hm
  by_cases h0 : row = 0
  · subst h0
    rw [errorReport_unknown_row] at hm
    simp at hm
  · by_cases h2 : row ≤ ((hstr.split data).length : Int)
    · obtain ⟨line, hl, hrep⟩ := errorReport_in_range desc row col data (by omega) h2
      rw [hrep] at hm
      simp only [List.mem_singleton] at hm
      subst hm
      obtain ⟨line2, _, hat⟩ := harrayAt_in_range (hstr.split data) row (by omega) h2
      exact ⟨rfl, by omega, by omega, line2, hat⟩
    · rw [errorReport_above_range desc row col data (by omega)] at hm
      simp at hm

/-- The constructor never ends in a subscript of `lines` outside its bounds. -/
theorem construct_ne_subscript (env : Collaborators) (addr : Nat) (filename : String)
    (i : Int) : (TinyXml_Document.construct env addr filename).2 ≠ .subscript i := by
  intro hc
  cases hr : env.hread filename with
  | error e =>
    rw [construct_read_failed env addr filename e hr] at hc
    exact Constructed.noConfusion hc
  | ok data =>
    cases he : (env.Parse data).Error with
    | false =>
      rw [construct_parsed env addr filename data hr he] at hc
      exact Constructed.noConfusion hc
    | true =>
      obtain ⟨d, hd⟩ := errorReport_natCast_some (env.Parse data).ErrorDesc
        (env.Parse data).ErrorRow (env.Parse data).ErrorCol data
      rw [construct_parse_failed env addr filename data d hr he hd] at hc
      exact Constructed.noConfusion hc

/-- C27: for every source text and every row and column the parser reports,
the error report subscripts `lines` only when `row != 0` and
`lines.size() >= row`, every index at which it does so is `row - 1` and lies
within `0 .. lines.size() - 1`, the subscript finds an element, and no
constructor call ends in a subscript outside the bounds. -/
theorem subscript_in_bounds_for_reported_rows (desc : String) (row col : Nat)
    (data : String) :
    (∀ i ∈ (errorReport desc (row : Int) (col : Int) data).lookups,
      (row ≠ 0 ∧ row ≤ (hstr.split data).length) ∧
      i = (row : Int) - 1 ∧ 0 ≤ i ∧ i ≤ ((hstr.split data).length : Int) - 1 ∧
      ∃ line, harrayAt (hstr.split data) i = some line) ∧
    (∀ (env : Collaborators) (addr : Nat) (filename : String) (i : Int),
      (TinyXml_Document.construct env addr filename).2 ≠ .subscript i) := by
  refine ⟨?_, fun env addr filename i => construct_ne_subscript env addr filename i⟩
  intro i hm
  obtain ⟨h1, h2, h3, h4⟩ :=
    errorReport_lookups_in_bounds desc (row : Int) (col : Int) data (by omega) i hm
  exact ⟨by omega, h1, h2, h3, h4⟩

theorem subscript_in_bounds_for_reported_rows_witness :
    (errorReport "Error" ((2 : Nat) : Int) ((5 : Nat) : Int) "a\nb").lookups = [1] ∧
    hstr.split "a\nb" = ["a", "b"] ∧
    ∀ i ∈ (errorReport "Error" ((2 : Nat) : Int) ((5 : Nat) : Int) "a\nb").lookups,
      ((2 : Nat) ≠ 0 ∧ 2 ≤ (hstr.split "a\nb").length) ∧
      i = ((2 : Nat) : Int) - 1 ∧ 0 ≤ i ∧ i ≤ ((hstr.split "a\nb").length : Int) - 1 ∧
      ∃ line, harrayAt (hstr.split "a\nb") i = some line :=
  ⟨by decide, by decide, (subscript_in_bounds_for_reported_rows "Error" 2 5 "a\nb").1⟩

end hlxml

namespace hltypes

/-- C19: for all integers `value`, `min`, `max` with `min ≤ max`, the result of
`hclamp(value, min, max)` lies between `min` and `max` inclusively, is `value`
when `min ≤ value ≤ max`, is `min` when `value < min` and is `max` when
`value > max`. -/
theorem hclamp_clamps (value min max : Int) (h : min ≤ max) :
    min ≤ hclamp value min max ∧ hclamp value min max ≤ max ∧
    (min ≤ value ∧ value ≤ max → hclamp value min max = value) ∧
    (value < min → hclamp value min max = min) ∧
    (value > max → hclamp value min max = max) := by
  unfold hclamp
  refine ⟨?_, ?_, ?_, ?_, ?_⟩
  · split
    · exact le_refl _
    · split <;> omega
  · split
    · exact h
    · split <;> omega
  · intro hv
    rw [if_neg (by omega), if_neg (by omega)]
  · intro hv
    rw [if_pos hv]
  · intro hv
    rw [if_neg (by omega), if_pos hv]

theorem hclamp_clamps_witness :
    (2 : Int) ≤ 9 ∧ hclamp 5 2 9 = 5 ∧ hclamp (-3) 2 9 = 2 ∧ hclamp 12 2 9 = 9 ∧
    (2 : Int) ≤ hclamp 12 2 9 ∧ hclamp 12 2 9 ≤ 9 :=
  ⟨by decide, by decide, by decide, by decide,
    (hclamp_clamps 12 2 9 (by decide)).1, (hclamp_clamps 12 2 9 (by decide)).2.1⟩

/-- C20: for every integer `value`, `hsgn(value)` is 0 when `value = 0`, 1 when
`value > 0` and -1 when `value < 0`, and `value = hsgn(value) * |value|`. -/
theorem hsgn_is_signum (value : Int) :
    (value = 0 → hsgn value = 0) ∧ (value > 0 → hsgn value = 1) ∧
    (value < 0 → hsgn value = -1) ∧ value = hsgn value * |value| := by
  unfold hsgn
  refine ⟨?_, ?_, ?_, ?_⟩
  · intro hv
    rw [if_pos hv]
  · intro hv
    rw [if_neg (by omega), if_pos (by omega)]
  · intro hv
    rw [if_neg (by omega), if_neg (by omega)]
  · rcases lt_trichotomy value 0 with hv | hv | hv
    · rw [if_neg (by omega), if_neg (by omega), abs_of_neg hv]
      omega
    · rw [if_pos hv, hv]
      simp
    · rw [if_neg (by omega), if_pos (by omega), abs_of_pos hv]
      omega

/-- C21: for all integers `a`, `b`, `hmin(a, b)` is at most `a` and at most `b`,
`hmax(a, b)` is at least `a` and at least `b`, each is one of `a` and `b`, both
are commutative, and `hmin(a, b) + hmax(a, b) = a + b`. -/
theorem hmin_hmax_lesser_greater (a b : Int) :
    hmin a b ≤ a ∧ hmin a b ≤ b ∧ hmax a b ≥ a ∧ hmax a b ≥ b ∧
    (hmin a b = a ∨ hmin a b = b) ∧ (hmax a b = a ∨ hmax a b = b) ∧
    hmin a b = hmin b a ∧ hmax a b = hmax b a ∧
    hmin a b + hmax a b = a + b := by
  unfold hmin hmax
  refine ⟨?_, ?_, ?_, ?_, ?_, ?_, ?_, ?_, ?_⟩
  · split <;> omega
  · split <;> omega
  · split <;> omega
  · split <;> omega
  · split
    · exact Or.inl rfl
    · exact Or.inr rfl
  · split
    · exact Or.inl rfl
    · exact Or.inr rfl
  · split <;> split <;> omega
  · split <;> split <;> omega
  · split <;> split <;> omega

/-- C22: for all integers `value`, `min`, `max`, `is_between` is true iff
`min ≤ value ≤ max`, `is_within` iff `min < value < max`, `is_in_range` iff
`min ≤ value < max` and `is_inside` iff `min < value ≤ max`; `is_within` implies
`is_in_range` and `is_inside`, and each of these two implies `is_between`. -/
theorem range_predicates_boundaries (value min max : Int) :
    (is_between value min max = true ↔ min ≤ value ∧ value ≤ max) ∧
    (is_within value min max = true ↔ min < value ∧ value < max) ∧
    (is_in_range value min max = true ↔ min ≤ value ∧ value < max) ∧
    (is_inside value min max = true ↔ min < value ∧ value ≤ max) ∧
    (is_within value min max = true → is_in_range value min max = true) ∧
    (is_within value min max = true → is_inside value min max = true) ∧
    (is_in_range value min max = true → is_between value min max = true) ∧
    (is_inside value min max = true → is_between value min max = true) := by
  simp only [is_between, is_within, is_in_range, is_inside, Bool.and_eq_true,
    decide_eq_true_eq, ge_iff_le, gt_iff_lt]
  refine ⟨trivial, trivial, trivial, trivial, ?_, ?_, ?_, ?_⟩ <;> intro h <;> omega

/-! ## The loop macros -/

/-- A loop that passes its test `n` times and then fails it yields, for any
fuel above `n`, the first `n` iterates of the start value. -/
theorem forValues_iterate (cond : Int → Bool) (next : Int → Int) :
    ∀ (n fuel : Nat) (start : Int),
      (∀ k, k < n → cond (Nat.iterate next k start) = true) →
      cond (Nat.iterate next n start) = false → n < fuel →
      forValues cond next fuel start =
        some ((List.range n).map (fun k => Nat.iterate next k start)) := by
  intro n
  induction n with
  | zero =>
    intro fuel start _ hstop hfuel
    obtain ⟨f, rfl⟩ : ∃ f, fuel = f + 1 := ⟨fuel - 1, by omega⟩
    have h0 : cond start = false := hstop
    simp [forValues, h0]
  | succ n ih =>
    intro fuel start hgo hstop hfuel
    obtain ⟨f, rfl⟩ : ∃ f, fuel = f + 1 := ⟨fuel - 1, by omega⟩
    have h0 : cond start = true := hgo 0 (Nat.succ_pos n)
    have hrec := ih f (next start)
      (fun k hk => by
        have := hgo (k + 1) (Nat.succ_lt_succ hk)
        rwa [Function.iterate_succ_apply] at this)
      (by rwa [Function.iterate_succ_apply] at hstop)
      (by omega)
    simp only [forValues, h0, if_true, hrec]
    rw [List.range_succ_eq_map, List.map_cons, List.map_map]
    rfl

theorem iterate_add_step (step : Int) (k : Nat) (start : Int) :
    Nat.iterate (fun name => name + step) k start = start + (k : Int) * step := by
  induction k generalizing start with
  | zero => simp
  | succ k ih =>
    rw [Function.iterate_succ_apply, ih]
    push_cast
    ring

theorem iterate_sub_step (step : Int) (k : Nat) (start : Int) :
    Nat.iterate (fun name => name - step) k start = start - (k : Int) * step := by
  induction k generalizing start with
  | zero => simp
  | succ k ih =>
    rw [Function.iterate_succ_apply, ih]
    push_cast
    ring

/-- The number of multiples `k * step`, `k ≥ 0`, below `d`. -/
theorem mul_step_lt_iff (d step : Int) (hs : 1 ≤ step) (k : Nat) :
    (k : Int) * step < d ↔ k < ((d + step - 1) / step).toNat := by
  have hpos : 0 < step := by omega
  have h1 : (d + step - 1) / step * step ≤ d + step - 1 :=
    Int.ediv_mul_le _ (by omega)
  have h2 : d + step - 1 < ((d + step - 1) / step + 1) * step :=
    Int.lt_ediv_add_one_mul_self _ hpos
  generalize (d + step - 1) / step = q at h1 h2
  constructor
  · intro hk
    by_contra hc
    have hq : q ≤ (k : Int) := by omega
    have h3 : (q + 1) * step ≤ ((k : Int) + 1) * step :=
      mul_le_mul_of_nonneg_right (by omega) (by omega)
    have h4 : ((k : Int) + 1) * step = (k : Int) * step + step := by ring
    omega
  · intro hk
    have hq : (k : Int) + 1 ≤ q := by omega
    have h3 : ((k : Int) + 1) * step ≤ q * step :=
      mul_le_mul_of_nonneg_right hq (by omega)
    have h4 : ((k : Int) + 1) * step = (k : Int) * step + step := by ring
    omega

theorem for_iter_step_values (min max step : Int) (hs : 1 ≤ step) (fuel : Nat)
    (hf : ((max - min + step - 1) / step).toNat < fuel) :
    for_iter_step fuel min max step =
      some ((List.range ((max - min + step - 1) / step).toNat).map
        (fun (k : Nat) => min + (k : Int) * step)) := by
  have hn := mul_step_lt_iff (max - min) step hs
  unfold for_iter_step
  rw [forValues_iterate _ _ ((max - min + step - 1) / step).toNat fuel min ?_ ?_ hf]
  · simp only [iterate_add_step]
  · intro k hk
    have := (hn k).mpr hk
    simp only [iterate_add_step, decide_eq_true_eq]
    omega
  · have := (hn ((max - min + step - 1) / step).toNat).not.mpr (lt_irrefl _)
    simp only [iterate_add_step, decide_eq_false_iff_not]
    omega

theorem for_iter_step_r_values (min max step : Int) (hs : 1 ≤ step) (fuel : Nat)
    (hf : ((max - min + step - 1) / step).toNat < fuel) :
    for_iter_step_r fuel max min step =
      some ((List.range ((max - min + step - 1) / step).toNat).map
        (fun (k : Nat) => max - 1 - (k : Int) * step)) := by
  have hn := mul_step_lt_iff (max - min) step hs
  unfold for_iter_step_r
  rw [forValues_iterate _ _ ((max - min + step - 1) / step).toNat fuel (max - 1) ?_ ?_ hf]
  · simp only [iterate_sub_step]
  · intro k hk
    have := (hn k).mpr hk
    simp only [iterate_sub_step, decide_eq_true_eq]
    omega
  · have := (hn ((max - min + step - 1) / step).toNat).not.mpr (lt_irrefl _)
    simp only [iterate_sub_step, decide_eq_false_iff_not]
    omega

theorem reverse_map_range (n : Nat) (f : Nat → Int) :
    ((List.range n).map f).reverse = (List.range n).map (fun k => f (n - 1 - k)) := by
  rw [← List.map_reverse, List.range_eq_range', List.reverse_range', List.map_map,
    ← List.range_eq_range']
  apply List.map_congr_left
  intro k _
  simp

theorem wrapInt_eq (x : Int) (h1 : INT_MIN ≤ x) (h2 : x ≤ INT_MAX) : wrapInt x = x := by
  unfold INT_MIN at h1
  unfold INT_MAX at h2
  unfold wrapInt
  omega

theorem wrapInt_range (x : Int) : INT_MIN ≤ wrapInt x ∧ wrapInt x ≤ INT_MAX := by
  unfold INT_MIN INT_MAX wrapInt
  omega

theorem iterate_increment (k : Nat) (start : Int) (h1 : INT_MIN ≤ start)
    (h2 : start + (k : Int) ≤ INT_MAX) :
    Nat.iterate (fun name => wrapInt (name + 1)) k start = start + (k : Int) := by
  induction k generalizing start with
  | zero => simp
  | succ k ih =>
    rw [Function.iterate_succ_apply]
    have hw : wrapInt (start + 1) = start + 1 := by
      apply wrapInt_eq
      · omega
      · push_cast at h2
        omega
    rw [hw, ih (start + 1) (by omega) (by push_cast at h2; omega)]
    push_cast
    ring

theorem iterate_decrement (k : Nat) (start : Int) (h1 : start ≤ INT_MAX)
    (h2 : INT_MIN ≤ start - (k : Int)) :
    Nat.iterate (fun name => wrapInt (name - 1)) k start = start - (k : Int) := by
  induction k generalizing start with
  | zero => simp
  | succ k ih =>
    rw [Function.iterate_succ_apply]
    have hw : wrapInt (start - 1) = start - 1 := by
      apply wrapInt_eq
      · push_cast at h2
        omega
      · omega
    rw [hw, ih (start - 1) (by omega) (by push_cast at h2; omega)]
    push_cast
    ring

/-- A loop whose test holds on a set of values that the update never leaves
does not end, whatever the fuel. -/
theorem forValues_never_ends (cond : Int → Bool) (next : Int → Int) (P : Int → Prop)
    (hP : ∀ x, P x → cond x = true ∧ P (next x)) :
    ∀ (fuel : Nat) (start : Int), P start → forValues cond next fuel start = none := by
  intro fuel
  induction fuel with
  | zero =>
    intro start _
    rfl
  | succ fuel ih =>
    intro start hs
    have h := hP start hs
    simp [forValues, h.1, ih (next start) h.2]

/-- C23 fails as stated: `-2147483646` and `-2147483648` are `int`s, and
`for_iter` between them visits `-2147483648`, `-2147483647`; but
`for_iter_r(name, -2147483646, -2147483648)` visits `-2147483647`,
`-2147483648` and then decrements `name` below `INT_MIN`: `name >= min` holds
for every `int`, so for no fuel does the loop end with the reversed sequence. -/
theorem for_iter_r_never_ends_at_int_min :
    INT_MIN = -2147483648 ∧ (INT_MIN ≤ -2147483646 ∧ (-2147483646 : Int) ≤ INT_MAX) ∧
    for_iter 10 (-2147483648) (-2147483646) = some [-2147483648, -2147483647] ∧
    (∀ fuel, for_iter_r fuel (-2147483646) (-2147483648) = none) ∧
    (∀ fuel, for_iter_r fuel (-2147483646) (-2147483648) ≠
      some [-2147483647, -2147483648]) := by
  have hnone : ∀ fuel, for_iter_r fuel (-2147483646) (-2147483648) = none := by
    intro fuel
    unfold for_iter_r
    apply forValues_never_ends _ _ (fun x => INT_MIN ≤ x)
    · intro x hx
      refine ⟨?_, (wrapInt_range _).1⟩
      unfold INT_MIN at hx
      simp only [decide_eq_true_eq]
      omega
    · exact (wrapInt_range _).1
  refine ⟨rfl, by decide, by decide, hnone, ?_⟩
  intro fuel hc
  rw [hnone fuel] at hc
  exact Option.noConfusion hc

/-- C23, amended: for all `int`s `min`, `max` and every fuel above `max - min`,
the loop variable of `for_iter(name, min, max)` takes exactly the values `min`,
`min + 1`, ..., `max - 1` in this increasing order (none when `max ≤ min`);
and when neither `min` nor `max` is `INT_MIN`, the loop variable of
`for_iter_r(name, max, min)` takes exactly the reverse of that sequence, that
is `max - 1`, `max - 2`, ..., `min` (none when `max ≤ min`). -/
theorem for_iter_sequences (min max : Int) (fuel : Nat)
    (hlo : INT_MIN ≤ min ∧ min ≤ INT_MAX) (hhi : INT_MIN ≤ max ∧ max ≤ INT_MAX)
    (hf : (max - min).toNat < fuel) :
    for_iter fuel min max =
      some ((List.range (max - min).toNat).map (fun (k : Nat) => min + (k : Int))) ∧
    ((List.range (max - min).toNat).map (fun (k : Nat) => min + (k : Int))).Pairwise
      (fun a b => a < b) ∧
    (max ≤ min → for_iter fuel min max = some []) ∧
    (INT_MIN < min → INT_MIN < max →
      for_iter_r fuel max min =
        some ((List.range (max - min).toNat).map
          (fun (k : Nat) => min + (k : Int))).reverse ∧
      for_iter_r fuel max min =
        some ((List.range (max - min).toNat).map (fun (k : Nat) => max - 1 - (k : Int))) ∧
      (max ≤ min → for_iter_r fuel max min = some [])) := by
  have hup : for_iter fuel min max =
      some ((List.range (max - min).toNat).map (fun (k : Nat) => min + (k : Int))) := by
    unfold for_iter
    rw [forValues_iterate _ _ (max - min).toNat fuel min ?_ ?_ hf]
    · congr 1
      apply List.map_congr_left
      intro k hk
      have hk2 : k < (max - min).toNat := List.mem_range.mp hk
      exact iterate_increment k min hlo.1 (by omega)
    · intro k hk
      rw [iterate_increment k min hlo.1 (by omega)]
      simp only [decide_eq_true_eq]
      omega
    · rw [iterate_increment _ min hlo.1 (by omega)]
      simp only [decide_eq_false_iff_not]
      omega
  have hrev : ((List.range (max - min).toNat).map (fun (k : Nat) => min + (k : Int))).reverse =
      (List.range (max - min).toNat).map (fun (k : Nat) => max - 1 - (k : Int)) := by
    rw [reverse_map_range]
    apply List.map_congr_left
    intro k hk
    have hk2 : k < (max - min).toNat := List.mem_range.mp hk
    omega
  refine ⟨hup, ?_, ?_, ?_⟩
  · rw [List.pairwise_map]
    refine List.Pairwise.imp ?_ (List.pairwise_lt_range _)
    intro a b hab
    omega
  · intro hle
    have h0 : (max - min).toNat = 0 := by omega
    rw [hup, h0]
    rfl
  · intro hlo2 hhi2
    have hstart : wrapInt (max - 1) = max - 1 := wrapInt_eq _ (by omega) (by omega)
    have hdown : for_iter_r fuel max min =
        some ((List.range (max - min).toNat).map (fun (k : Nat) => max - 1 - (k : Int))) := by
      unfold for_iter_r
      rw [hstart, forValues_iterate _ _ (max - min).toNat fuel (max - 1) ?_ ?_ hf]
      · congr 1
        apply List.map_congr_left
        intro k hk
        have hk2 : k < (max - min).toNat := List.mem_range.mp hk
        exact iterate_decrement k (max - 1) (by omega) (by omega)
      · intro k hk
        rw [iterate_decrement k (max - 1) (by omega) (by omega)]
        simp only [decide_eq_true_eq]
        omega
      · rw [iterate_decrement _ (max - 1) (by omega) (by omega)]
        simp only [decide_eq_false_iff_not]
        omega
    refine ⟨?_, hdown, ?_⟩
    · rw [hrev]
      exact hdown
    · intro hle
      have h0 : (max - min).toNat = 0 := by omega
      rw [hdown, h0]
      rfl

theorem for_iter_sequences_witness :
    (INT_MIN ≤ 2 ∧ (2 : Int) ≤ INT_MAX) ∧ (INT_MIN ≤ 5 ∧ (5 : Int) ≤ INT_MAX) ∧
    ((5 : Int) - 2).toNat < 10 ∧ INT_MIN < 2 ∧ INT_MIN < 5 ∧
    for_iter 10 2 5 = some [2, 3, 4] ∧ for_iter_r 10 5 2 = some [4, 3, 2] ∧
    for_iter 10 2 5 =
      some ((List.range ((5 : Int) - 2).toNat).map (fun (k : Nat) => (2 : Int) + (k : Int))) ∧
    for_iter_r 10 5 2 =
      some ((List.range ((5 : Int) - 2).toNat).map
        (fun (k : Nat) => (2 : Int) + (k : Int))).reverse :=
  ⟨by decide, by decide, by decide, by decide, by decide, by decide, by decide,
    (for_iter_sequences 2 5 10 (by decide) (by decide) (by decide)).1,
    ((for_iter_sequences 2 5 10 (by decide) (by decide) (by decide)).2.2.2
      (by decide) (by decide)).1⟩

/-- C24: for all integers `min`, `max` and every `step ≥ 1`, with exact
arithmetic, there is a number `n` of iterations such that `min + k * step < max`
holds exactly for the `k < n`, and so does `max - 1 - k * step ≥ min`; for every
fuel above `n` the loop `for_iter_step(name, min, max, step)` ends and visits
exactly the values `min + k * step`, `k < n`, in increasing order, and the loop
`for_iter_step_r(name, max, min, step)` ends and visits exactly the values
`max - 1 - k * step`, `k < n`, in decreasing order; all visited values lie
between `min` and `max - 1`. -/
theorem stepped_loops_terminate (min max step : Int) (hs : 1 ≤ step) :
    ∃ n : Nat,
      (∀ k : Nat, min + (k : Int) * step < max ↔ k < n) ∧
      (∀ k : Nat, max - 1 - (k : Int) * step ≥ min ↔ k < n) ∧
      (∀ fuel, n < fuel → for_iter_step fuel min max step =
        some ((List.range n).map (fun (k : Nat) => min + (k : Int) * step))) ∧
      (∀ fuel, n < fuel → for_iter_step_r fuel max min step =
        some ((List.range n).map (fun (k : Nat) => max - 1 - (k : Int) * step))) ∧
      ((List.range n).map (fun (k : Nat) => min + (k : Int) * step)).Pairwise
        (fun a b => a < b) ∧
      ((List.range n).map (fun (k : Nat) => max - 1 - (k : Int) * step)).Pairwise
        (fun a b => a > b) ∧
      (∀ v ∈ (List.range n).map (fun (k : Nat) => min + (k : Int) * step),
        min ≤ v ∧ v ≤ max - 1) ∧
      (∀ v ∈ (List.range n).map (fun (k : Nat) => max - 1 - (k : Int) * step),
        min ≤ v ∧ v ≤ max - 1) := by
  have hn := mul_step_lt_iff (max - min) step hs
  have hmono : ∀ a b : Nat, a < b → (a : Int) * step < (b : Int) * step := by
    intro a b hab
    have h1 : ((a : Int) + 1) * step ≤ (b : Int) * step :=
      mul_le_mul_of_nonneg_right (by omega) (by omega)
    have h2 : ((a : Int) + 1) * step = (a : Int) * step + step := by ring
    omega
  have hnonneg : ∀ k : Nat, 0 ≤ (k : Int) * step := by
    intro k
    exact mul_nonneg (Int.ofNat_nonneg k) (by omega)
  refine ⟨((max - min + step - 1) / step).toNat, ?_, ?_, ?_, ?_, ?_, ?_, ?_, ?_⟩
  · intro k
    rw [← hn k]
    constructor <;> intro h <;> omega
  · intro k
    rw [← hn k]
    constructor <;> intro h <;> omega
  · intro fuel hf
    exact for_iter_step_values min max step hs fuel hf
  · intro fuel hf
    exact for_iter_step_r_values min max step hs fuel hf
  · rw [List.pairwise_map]
    refine List.Pairwise.imp ?_ (List.pairwise_lt_range _)
    intro a b hab
    have := hmono a b hab
    omega
  · rw [List.pairwise_map]
    refine List.Pairwise.imp ?_ (List.pairwise_lt_range _)
    intro a b hab
    have := hmono a b hab
    omega
  · intro v hv
    obtain ⟨k, hk, rfl⟩ := List.mem_map.mp hv
    have h1 := (hn k).mpr (List.mem_range.mp hk)
    have h2 := hnonneg k
    constructor <;> omega
  · intro v hv
    obtain ⟨k, hk, rfl⟩ := List.mem_map.mp hv
    have h1 := (hn k).mpr (List.mem_range.mp hk)
    have h2 := hnonneg k
    constructor <;> omega

theorem stepped_loops_terminate_witness :
    (1 : Int) ≤ 3 ∧
    for_iter_step 10 2 9 3 = some [2, 5, 8] ∧ for_iter_step_r 10 9 2 3 = some [8, 5, 2] ∧
    ∃ n : Nat,
      (∀ k : Nat, (2 : Int) + (k : Int) * 3 < 9 ↔ k < n) ∧
      (∀ k : Nat, (9 : Int) - 1 - (k : Int) * 3 ≥ 2 ↔ k < n) ∧
      (∀ fuel, n < fuel → for_iter_step fuel 2 9 3 =
        some ((List.range n).map (fun (k : Nat) => (2 : Int) + (k : Int) * 3))) ∧
      (∀ fuel, n < fuel → for_iter_step_r fuel 9 2 3 =
        some ((List.range n).map (fun (k : Nat) => (9 : Int) - 1 - (k : Int) * 3))) ∧
      ((List.range n).map (fun (k : Nat) => (2 : Int) + (k : Int) * 3)).Pairwise
        (fun a b => a < b) ∧
      ((List.range n).map (fun (k : Nat) => (9 : Int) - 1 - (k : Int) * 3)).Pairwise
        (fun a b => a > b) ∧
      (∀ v ∈ (List.range n).map (fun (k : Nat) => (2 : Int) + (k : Int) * 3),
        2 ≤ v ∧ v ≤ 9 - 1) ∧
      (∀ v ∈ (List.range n).map (fun (k : Nat) => (9 : Int) - 1 - (k : Int) * 3),
        2 ≤ v ∧ v ≤ 9 - 1) :=
  ⟨by decide, by decide, by decide, stepped_loops_terminate 2 9 3 (by decide)⟩

end hltypes
